import Mathlib

/-!
Shallow embedding of the core of the `sgl` geometry library
(src/sgl/sgl.hpp, src/sgl/sgl.cpp) together with proofs settling the
frozen claims about it.

Conventions used throughout:

* C++ `double` arithmetic is embedded as exact arithmetic.  All branch
  decisions of the library are polynomial comparisons on coordinates, so
  they are modelled over `ℚ` (decidable, executable); square roots, which
  appear only in final distance/length values, are taken in `ℝ` via
  `Real.sqrt`.  In Lean, `x / 0 = 0`; the C++ code divides by zero only in
  corner cases noted at the relevant definitions.
* The IEEE infinity used as the initial accumulator of distance searches
  is modelled by `⊤` in `WithTop _`.
* A vertex array of width `2 + has_z + has_m` doubles per vertex is read
  by the library exclusively through `get_vertex_xy` / `get_vertex_xyzm`,
  which `memcpy` the first `width` doubles of a vertex into a
  zero-initialised `{x,y,z,m}` struct.  Leaf vertex data is therefore
  modelled as the list of those padded quadruples (`V4`), except where a
  claim is about the raw layout itself (claim C10), where the flat array
  is modelled directly.
-/

namespace SGL

/-- Geometry type tags, mirroring `sgl::geometry_type` (sgl.hpp). -/
inductive GType where
  | invalid
  | point
  | linestring
  | polygon
  | multiPoint
  | multiLinestring
  | multiPolygon
  | collection
deriving DecidableEq, Repr

/-- A 2-d vertex, mirroring `sgl::vertex_xy`. -/
structure Vxy (α : Type) where
  x : α
  y : α
deriving DecidableEq, Repr

/-- A 4-d vertex, mirroring `sgl::vertex_xyzm`. -/
structure V4 (α : Type) where
  x : α
  y : α
  z : α
  m : α
deriving DecidableEq, Repr

/-- The xy part of a 4-d vertex (what `memcpy(&v, ptr, sizeof(vertex_xy))`
reads from a vertex). -/
def V4.xy {α : Type} (v : V4 α) : Vxy α := ⟨v.x, v.y⟩

variable {α : Type} [LinearOrderedField α]

/-- `orient2d_fast` (sgl.cpp): sign of the orientation determinant of the
triplet `(p, q, r)`; `0` collinear, `1` clockwise, `-1` counter-clockwise. -/
def orient2dFast (p q r : Vxy α) : ℤ :=
  let detL := (p.x - r.x) * (q.y - r.y)
  let detR := (p.y - r.y) * (q.x - r.x)
  let det := detL - detR
  (if 0 < det then (1 : ℤ) else 0) - (if det < 0 then (1 : ℤ) else 0)

/-- Result of `raycast_fast` (sgl.cpp). -/
inductive RaycastResult where
  | NONE
  | CROSS
  | BOUNDARY
deriving DecidableEq, Repr

/-- `raycast_fast` (sgl.cpp): contribution of the segment `(prev, next)` to
a horizontal ray shot from `vert` towards `+x`. -/
def raycastFast (prev next vert : Vxy α) : RaycastResult :=
  if prev.x < vert.x ∧ next.x < vert.x then
    -- the segment is to the left of the point
    .NONE
  else if next.x = vert.x ∧ next.y = vert.y then
    -- the point is on the segment, they share a vertex
    .BOUNDARY
  else if prev.y = vert.y ∧ next.y = vert.y then
    -- the segment is horizontal; check whether the point is within min/max x
    if min prev.x next.x ≤ vert.x ∧ vert.x ≤ max prev.x next.x then .BOUNDARY
    else .NONE
  else if (prev.y > vert.y ∧ next.y ≤ vert.y) ∨ (next.y > vert.y ∧ prev.y ≤ vert.y) then
    let sign := orient2dFast prev next vert
    if sign = 0 then .BOUNDARY
    else
      let sign2 := if next.y < prev.y then -sign else sign
      if 0 < sign2 then .CROSS else .NONE
  else .NONE

/-- Result of `vertex_in_ring` (sgl.cpp), mirroring
`sgl::point_in_polygon_result`. -/
inductive PipResult where
  | INVALID
  | INTERIOR
  | EXTERIOR
  | BOUNDARY
deriving DecidableEq, Repr

/-- The segment loop of `vertex_in_ring` (sgl.cpp): walks the segments
`(prev, next)` of the ring, counting crossings; `none` encodes the early
`return BOUNDARY` of the C++ loop. -/
def vertexInRingLoop (vert : Vxy α) : Vxy α → List (Vxy α) → Option ℕ
  | _, [] => some 0
  | prev, next :: rest =>
    match raycastFast prev next vert with
    | .NONE => vertexInRingLoop vert next rest
    | .CROSS => (vertexInRingLoop vert next rest).map (· + 1)
    | .BOUNDARY => none

/-- `vertex_in_ring` (sgl.cpp) on the xy vertex sequence of an (unprepared)
`LINESTRING` ring: `INVALID` for rings of fewer than 3 vertices, otherwise
`BOUNDARY` on exact incidence and even/odd parity of crossings. -/
def vertexInRingXY (vert : Vxy α) (verts : List (Vxy α)) : PipResult :=
  if verts.length < 3 then .INVALID
  else
    match verts with
    | [] => .INVALID
    | v0 :: rest =>
      match vertexInRingLoop vert v0 rest with
      | none => .BOUNDARY
      | some crossings => if crossings % 2 = 0 then .EXTERIOR else .INTERIOR

/-- The consecutive-vertex segments of a vertex list (the pairs `(prev, next)`
visited by the library's segment loops). -/
def segs : List (Vxy α) → List (Vxy α × Vxy α)
  | a :: b :: rest => (a, b) :: segs (b :: rest)
  | _ => []

theorem orient2dFast_swap (p q r : Vxy α) : orient2dFast q p r = -orient2dFast p q r := by
  have hring : (q.x - r.x) * (p.y - r.y) - (q.y - r.y) * (p.x - r.x) =
      -((p.x - r.x) * (q.y - r.y) - (p.y - r.y) * (q.x - r.x)) := by ring
  simp only [orient2dFast]
  split_ifs <;> first | omega | (exfalso; linarith [hring])

/-- A segment whose `next` endpoint coincides with the query vertex always
reports `BOUNDARY`. -/
theorem raycastFast_eq_next (p v : Vxy α) : raycastFast p v v = .BOUNDARY := by
  simp [raycastFast, lt_irrefl]

/-- For a query vertex distinct from both endpoints, `raycast_fast` does not
depend on the orientation of the segment. -/
theorem raycastFast_swap (p n v : Vxy α) (hp : v ≠ p) (hn : v ≠ n) :
    raycastFast p n v = raycastFast n p v := by
  have hpn : ¬(p.x = v.x ∧ p.y = v.y) := by
    intro h
    exact hp (by cases v; cases p; simp_all)
  have hnn : ¬(n.x = v.x ∧ n.y = v.y) := by
    intro h
    exact hn (by cases v; cases n; simp_all)
  simp only [raycastFast, orient2dFast_swap p n v]
  by_cases hg : p.x < v.x ∧ n.x < v.x
  · have hg' : n.x < v.x ∧ p.x < v.x := ⟨hg.2, hg.1⟩
    simp only [if_pos hg, if_pos hg']
  · have hg' : ¬(n.x < v.x ∧ p.x < v.x) := fun h => hg ⟨h.2, h.1⟩
    simp only [if_neg hg, if_neg hg', if_neg hpn, if_neg hnn]
    by_cases hh : p.y = v.y ∧ n.y = v.y
    · have hh' : n.y = v.y ∧ p.y = v.y := ⟨hh.2, hh.1⟩
      simp only [if_pos hh, if_pos hh', min_comm, max_comm]
    · have hh' : ¬(n.y = v.y ∧ p.y = v.y) := fun h => hh ⟨h.2, h.1⟩
      simp only [if_neg hh, if_neg hh']
      by_cases hs : (p.y > v.y ∧ n.y ≤ v.y) ∨ (n.y > v.y ∧ p.y ≤ v.y)
      · have hs' : (n.y > v.y ∧ p.y ≤ v.y) ∨ (p.y > v.y ∧ n.y ≤ v.y) := hs.symm
        simp only [if_pos hs, if_pos hs']
        by_cases hz : orient2dFast p n v = 0
        · have hz' : -orient2dFast p n v = 0 := by omega
          simp only [if_pos hz, if_pos hz']
        · have hz' : ¬(-orient2dFast p n v = 0) := by omega
          simp only [if_neg hz, if_neg hz', neg_neg]
          have hne : p.y ≠ n.y := by
            rcases hs with ⟨h1, h2⟩ | ⟨h1, h2⟩
            · exact ne_of_gt (lt_of_le_of_lt h2 h1)
            · exact ne_of_lt (lt_of_le_of_lt h2 h1)
          rcases lt_or_gt_of_ne hne with hlt | hlt
          · simp only [if_pos hlt, if_neg (not_lt.mpr hlt.le)]
          · simp only [if_pos hlt, if_neg (not_lt.mpr hlt.le)]
      · have hs' : ¬((n.y > v.y ∧ p.y ≤ v.y) ∨ (p.y > v.y ∧ n.y ≤ v.y)) := fun h => hs h.symm
        simp only [if_neg hs, if_neg hs']

/-- Whether a segment reports `BOUNDARY` for the query vertex `v`. -/
def isBseg (v : Vxy α) (pr : Vxy α × Vxy α) : Bool :=
  decide (raycastFast pr.1 pr.2 v = .BOUNDARY)

/-- Whether a segment reports `CROSS` for the query vertex `v`. -/
def isCseg (v : Vxy α) (pr : Vxy α × Vxy α) : Bool :=
  decide (raycastFast pr.1 pr.2 v = .CROSS)

theorem vertexInRingLoop_eq (v : Vxy α) :
    ∀ (l : List (Vxy α)) (p : Vxy α),
      vertexInRingLoop v p l =
        if (segs (p :: l)).any (isBseg v) then none
        else some ((segs (p :: l)).countP (isCseg v)) := by
  intro l
  induction l with
  | nil => intro p; simp [vertexInRingLoop, segs]
  | cons next rest ih =>
    intro p
    have hsegs : segs (p :: next :: rest) = (p, next) :: segs (next :: rest) := rfl
    rw [hsegs]
    cases hray : raycastFast p next v with
    | NONE =>
      have hb : isBseg v (p, next) = false := by simp [isBseg, hray]
      have hc : isCseg v (p, next) = false := by simp [isCseg, hray]
      simp only [vertexInRingLoop, hray, ih, List.any_cons, List.countP_cons, hb, hc]
      rw [Bool.false_or]
      simp
    | CROSS =>
      have hb : isBseg v (p, next) = false := by simp [isBseg, hray]
      have hc : isCseg v (p, next) = true := by simp [isCseg, hray]
      simp only [vertexInRingLoop, hray, ih, List.any_cons, List.countP_cons, hb, hc]
      by_cases hany : (segs (next :: rest)).any (isBseg v) = true
      · simp [hany]
      · simp [Bool.eq_false_iff.mpr hany]
    | BOUNDARY =>
      have hb : isBseg v (p, next) = true := by simp [isBseg, hray]
      simp only [vertexInRingLoop, hray, List.any_cons, hb]
      simp

theorem segs_snoc (l : List (Vxy α)) (a : Vxy α) :
    segs (l ++ [a]) =
      segs l ++ (match l.getLast? with | none => [] | some b => [(b, a)]) := by
  induction l with
  | nil => simp [segs]
  | cons x t ih =>
    cases t with
    | nil => simp [segs]
    | cons y t' =>
      have h1 : segs ((x :: y :: t') ++ [a]) = (x, y) :: segs ((y :: t') ++ [a]) := rfl
      have h2 : segs (x :: y :: t') = (x, y) :: segs (y :: t') := rfl
      rw [h1, ih, h2, List.getLast?_cons_cons]
      simp

theorem segs_reverse (l : List (Vxy α)) :
    segs l.reverse = (segs l).reverse.map (fun pr => (pr.2, pr.1)) := by
  induction l with
  | nil => simp [segs]
  | cons a t ih =>
    cases t with
    | nil => simp [segs]
    | cons b t' =>
      have h2 : segs (a :: b :: t') = (a, b) :: segs (b :: t') := rfl
      rw [List.reverse_cons, segs_snoc, ih, h2]
      have h3 : (b :: t').reverse.getLast? = some b := by
        rw [List.getLast?_reverse]
        rfl
      rw [h3]
      simp

theorem segs_map_snd (l : List (Vxy α)) : (segs l).map Prod.snd = l.tail := by
  induction l with
  | nil => rfl
  | cons a t ih =>
    cases t with
    | nil => rfl
    | cons b t' =>
      have h : segs (a :: b :: t') = (a, b) :: segs (b :: t') := rfl
      rw [h]
      simpa using ih

theorem segs_map_fst (l : List (Vxy α)) : (segs l).map Prod.fst = l.dropLast := by
  induction l with
  | nil => rfl
  | cons a t ih =>
    cases t with
    | nil => rfl
    | cons b t' =>
      have h : segs (a :: b :: t') = (a, b) :: segs (b :: t') := rfl
      rw [h]
      simpa using ih

theorem tail_reverse (l : List (Vxy α)) : l.reverse.tail = l.dropLast.reverse := by
  rcases l.eq_nil_or_concat with rfl | ⟨l', a, rfl⟩
  · rfl
  · simp

/-- In a closed vertex list, every member of the tail is also a member of the
list without its last element. -/
theorem mem_tail_mem_dropLast (vs : List (Vxy α)) (v : Vxy α) (hlen : 2 ≤ vs.length)
    (hclosed : vs.head? = vs.getLast?) (hv : v ∈ vs.tail) : v ∈ vs.dropLast := by
  rcases vs with _ | ⟨v0, rest⟩
  · simp at hv
  rcases rest.eq_nil_or_concat with rfl | ⟨r', b, rfl⟩
  · simp at hlen
  simp only [List.concat_eq_append] at hlen hclosed hv ⊢
  have hlast : (v0 :: (r' ++ [b])).getLast? = some b := by
    rw [show v0 :: (r' ++ [b]) = (v0 :: r') ++ [b] by simp, List.getLast?_concat]
  rw [hlast] at hclosed
  have hb : v0 = b := by simpa using hclosed
  simp only [List.tail_cons] at hv
  have hdl : (v0 :: (r' ++ [b])).dropLast = v0 :: r' := by
    rw [show v0 :: (r' ++ [b]) = (v0 :: r') ++ [b] by simp, List.dropLast_concat]
  rw [hdl]
  rcases List.mem_append.mp hv with h | h
  · exact List.mem_cons_of_mem _ h
  · have : v = b := by simpa using h
    rw [this, ← hb]
    exact List.mem_cons_self _ _

/-- One direction of boundary-detection invariance under ring reversal, for
closed vertex lists. -/
theorem anyB_reverse (v : Vxy α) (vs : List (Vxy α)) (hlen : 2 ≤ vs.length)
    (hclosed : vs.head? = vs.getLast?)
    (h : (segs vs).any (isBseg v) = true) :
    (segs vs.reverse).any (isBseg v) = true := by
  obtain ⟨pr, hmem, hB⟩ := List.any_eq_true.mp h
  by_cases hvmem : v ∈ vs.dropLast
  · have hv' : v ∈ (segs vs.reverse).map Prod.snd := by
      rw [segs_map_snd, tail_reverse, List.mem_reverse]
      exact hvmem
    obtain ⟨pr', hmem', hsnd⟩ := List.mem_map.mp hv'
    refine List.any_eq_true.mpr ⟨pr', hmem', ?_⟩
    have : raycastFast pr'.1 pr'.2 v = .BOUNDARY := by
      rw [show pr'.2 = v from hsnd]
      exact raycastFast_eq_next _ _
    simp [isBseg, this]
  · have hv1 : v ≠ pr.1 := by
      intro hveq
      apply hvmem
      rw [← segs_map_fst]
      exact List.mem_map.mpr ⟨pr, hmem, hveq.symm⟩
    have hv2 : v ≠ pr.2 := by
      intro hveq
      apply hvmem
      refine mem_tail_mem_dropLast vs v hlen hclosed ?_
      rw [← segs_map_snd]
      exact List.mem_map.mpr ⟨pr, hmem, hveq.symm⟩
    refine List.any_eq_true.mpr ⟨(pr.2, pr.1), ?_, ?_⟩
    · rw [segs_reverse, List.mem_map]
      exact ⟨pr, List.mem_reverse.mpr hmem, rfl⟩
    · have hswap : raycastFast pr.2 pr.1 v = raycastFast pr.1 pr.2 v :=
        (raycastFast_swap pr.1 pr.2 v hv1 hv2).symm
      have hB' : raycastFast pr.1 pr.2 v = .BOUNDARY := by
        simpa [isBseg] using hB
      simp [isBseg, hswap, hB']

theorem countP_reverse' (p : Vxy α × Vxy α → Bool) (l : List (Vxy α × Vxy α)) :
    l.reverse.countP p = l.countP p := by
  induction l with
  | nil => rfl
  | cons a t ih => simp [List.countP_cons, List.countP_append, ih, Nat.add_comm]

/-- Closed form of `vertexInRingXY` on rings of at least three vertices. -/
theorem vertexInRingXY_spec (v : Vxy α) (vs : List (Vxy α)) (h : ¬(vs.length < 3)) :
    vertexInRingXY v vs =
      if (segs vs).any (isBseg v) then PipResult.BOUNDARY
      else if ((segs vs).countP (isCseg v)) % 2 = 0 then .EXTERIOR else .INTERIOR := by
  rcases vs with _ | ⟨v0, rest⟩
  · simp at h
  · unfold vertexInRingXY
    rw [if_neg h]
    show (match vertexInRingLoop v v0 rest with
      | none => PipResult.BOUNDARY
      | some crossings =>
        if crossings % 2 = 0 then PipResult.EXTERIOR else PipResult.INTERIOR) = _
    rw [vertexInRingLoop_eq]
    by_cases hA : (segs (v0 :: rest)).any (isBseg v) = true
    · simp [hA]
    · simp [Bool.eq_false_iff.mpr hA]

/-- The tail of a closed list of length at least 2 contains the head. -/
theorem head_mem_tail_of_closed (vs : List (Vxy α)) (hlen : 2 ≤ vs.length)
    (hclosed : vs.head? = vs.getLast?) (v : Vxy α) (hh : vs.head? = some v) :
    v ∈ vs.tail := by
  rcases vs with _ | ⟨v0, rest⟩
  · simp at hh
  rcases rest.eq_nil_or_concat with rfl | ⟨r', b, hre⟩
  · simp at hlen
  have hv0 : v = v0 := by simpa using hh.symm
  have hlast : (v0 :: rest).getLast? = some b := by
    rw [hre, show v0 :: (r'.concat b) = (v0 :: r') ++ [b] by simp, List.getLast?_concat]
  have hb : v0 = b := by
    rw [hlast] at hclosed
    simpa using hclosed
  rw [hv0, hb, hre]
  simp

/-- Point-in-ring is invariant under reversing a closed ring, and never
`INVALID` on rings of at least three vertices. -/
theorem vertexInRingXY_reverse (v : Vxy α) (vs : List (Vxy α)) (hlen : 3 ≤ vs.length)
    (hclosed : vs.head? = vs.getLast?) :
    vertexInRingXY v vs.reverse = vertexInRingXY v vs ∧ vertexInRingXY v vs ≠ .INVALID := by
  have hlen2 : 2 ≤ vs.length := le_trans (by norm_num) hlen
  have hnl : ¬(vs.length < 3) := not_lt.mpr hlen
  have hnl' : ¬(vs.reverse.length < 3) := by
    rw [List.length_reverse]
    exact hnl
  have hclosed' : vs.reverse.head? = vs.reverse.getLast? := by
    rw [List.head?_reverse, List.getLast?_reverse]
    exact hclosed.symm
  have hAA : (segs vs).any (isBseg v) = (segs vs.reverse).any (isBseg v) := by
    by_cases hA : (segs vs).any (isBseg v) = true
    · rw [hA, anyB_reverse v vs hlen2 hclosed hA]
    · by_cases hA' : (segs vs.reverse).any (isBseg v) = true
      · exfalso
        apply hA
        have := anyB_reverse v vs.reverse (by rw [List.length_reverse]; exact hlen2)
          hclosed' hA'
        rwa [List.reverse_reverse] at this
      · rw [Bool.eq_false_iff.mpr hA, Bool.eq_false_iff.mpr hA']
  constructor
  · rw [vertexInRingXY_spec v vs hnl, vertexInRingXY_spec v vs.reverse hnl', ← hAA]
    by_cases hA : (segs vs).any (isBseg v) = true
    · simp [hA]
    · -- no boundary hit anywhere: the query vertex is not a vertex of the ring
      have hnotmem : v ∉ vs := by
        intro hvm
        have hvt : v ∈ vs.tail := by
          rcases vs with _ | ⟨v0, rest⟩
          · simp at hvm
          rcases List.mem_cons.mp hvm with h | h
          · exact head_mem_tail_of_closed _ hlen2 hclosed v (by simp [h])
          · exact h
        have : v ∈ (segs vs).map Prod.snd := by rw [segs_map_snd]; exact hvt
        obtain ⟨pr, hpr, hsnd⟩ := List.mem_map.mp this
        have hbt : isBseg v pr = true := by
          have : raycastFast pr.1 pr.2 v = .BOUNDARY := by
            rw [show pr.2 = v from hsnd]
            exact raycastFast_eq_next _ _
          simp [isBseg, this]
        rw [List.any_eq_true] at hA
        exact absurd ⟨pr, hpr, hbt⟩ hA
      have hcount : (segs vs.reverse).countP (isCseg v) = (segs vs).countP (isCseg v) := by
        rw [segs_reverse, List.countP_map, countP_reverse']
        apply List.countP_congr
        intro pr hpr
        have h1 : pr.1 ∈ vs := by
          have : pr.1 ∈ (segs vs).map Prod.fst := List.mem_map.mpr ⟨pr, hpr, rfl⟩
          rw [segs_map_fst] at this
          exact (List.dropLast_sublist vs).subset this
        have h2 : pr.2 ∈ vs := by
          have : pr.2 ∈ (segs vs).map Prod.snd := List.mem_map.mpr ⟨pr, hpr, rfl⟩
          rw [segs_map_snd] at this
          exact (List.tail_sublist vs).subset this
        have hv1 : v ≠ pr.1 := fun h => hnotmem (h ▸ h1)
        have hv2 : v ≠ pr.2 := fun h => hnotmem (h ▸ h2)
        simp [isCseg, Function.comp, raycastFast_swap pr.1 pr.2 v hv1 hv2]
      rw [hcount]
  · rw [vertexInRingXY_spec v vs hnl]
    split_ifs <;> simp

/-- C6 (amended): for every LINESTRING ring of at least three vertices whose
first and last vertices coincide, and every query vertex, `vertex_in_ring`
returns exactly one of INTERIOR, EXTERIOR, BOUNDARY, and repeating the test
on the ring with its vertex order reversed returns the same classification. -/
theorem C6_vertexInRing_trichotomy_and_reversal (v : Vxy ℚ) (vs : List (Vxy ℚ))
    (hlen : 3 ≤ vs.length) (hclosed : vs.head? = vs.getLast?) :
    (vertexInRingXY v vs = .INTERIOR ∨ vertexInRingXY v vs = .EXTERIOR ∨
      vertexInRingXY v vs = .BOUNDARY) ∧
    vertexInRingXY v vs.reverse = vertexInRingXY v vs := by
  obtain ⟨h1, h2⟩ := vertexInRingXY_reverse v vs hlen hclosed
  refine ⟨?_, h1⟩
  cases hres : vertexInRingXY v vs
  · exact absurd hres h2
  · exact Or.inl rfl
  · exact Or.inr (Or.inl rfl)
  · exact Or.inr (Or.inr rfl)

/-- C6 counterexample: the claim as stated fails on the code.  A 2-vertex
ring yields INVALID (not one of the three classifications), and an open
3-vertex ring changes classification from EXTERIOR to BOUNDARY when its
vertex order is reversed. -/
theorem C6_counterexample :
    vertexInRingXY (⟨0, 0⟩ : Vxy ℚ) [⟨0, 0⟩, ⟨1, 1⟩] = .INVALID ∧
    vertexInRingXY (⟨0, 0⟩ : Vxy ℚ) [⟨0, 0⟩, ⟨0, -10⟩, ⟨10, -10⟩] = .EXTERIOR ∧
    vertexInRingXY (⟨0, 0⟩ : Vxy ℚ)
      (([⟨0, 0⟩, ⟨0, -10⟩, ⟨10, -10⟩] : List (Vxy ℚ)).reverse) = .BOUNDARY := by
  decide

/-- Witness for C6 at a concrete closed square ring and interior point. -/
theorem C6_witness :
    (3 ≤ ([⟨0, 0⟩, ⟨4, 0⟩, ⟨4, 4⟩, ⟨0, 4⟩, ⟨0, 0⟩] : List (Vxy ℚ)).length) ∧
    ([⟨0, 0⟩, ⟨4, 0⟩, ⟨4, 4⟩, ⟨0, 4⟩, ⟨0, 0⟩] : List (Vxy ℚ)).head? =
      ([⟨0, 0⟩, ⟨4, 0⟩, ⟨4, 4⟩, ⟨0, 4⟩, ⟨0, 0⟩] : List (Vxy ℚ)).getLast? ∧
    ((vertexInRingXY (⟨2, 2⟩ : Vxy ℚ) [⟨0, 0⟩, ⟨4, 0⟩, ⟨4, 4⟩, ⟨0, 4⟩, ⟨0, 0⟩] = .INTERIOR ∨
      vertexInRingXY (⟨2, 2⟩ : Vxy ℚ) [⟨0, 0⟩, ⟨4, 0⟩, ⟨4, 4⟩, ⟨0, 4⟩, ⟨0, 0⟩] = .EXTERIOR ∨
      vertexInRingXY (⟨2, 2⟩ : Vxy ℚ) [⟨0, 0⟩, ⟨4, 0⟩, ⟨4, 4⟩, ⟨0, 4⟩, ⟨0, 0⟩] = .BOUNDARY) ∧
     vertexInRingXY (⟨2, 2⟩ : Vxy ℚ)
        (([⟨0, 0⟩, ⟨4, 0⟩, ⟨4, 4⟩, ⟨0, 4⟩, ⟨0, 0⟩] : List (Vxy ℚ)).reverse) =
      vertexInRingXY (⟨2, 2⟩ : Vxy ℚ) [⟨0, 0⟩, ⟨4, 0⟩, ⟨4, 4⟩, ⟨0, 4⟩, ⟨0, 0⟩]) :=
  ⟨by decide, by decide,
    C6_vertexInRing_trichotomy_and_reversal ⟨2, 2⟩
      [⟨0, 0⟩, ⟨4, 0⟩, ⟨4, 4⟩, ⟨0, 4⟩, ⟨0, 0⟩] (by decide) (by decide)⟩

/-!
## Geometry tree model

`sgl::geometry` is a tagged node whose `data` word is either a vertex array
(leaves) or the tail of a circular child list (multi-parts).  The model
stores both fields; by the same convention leaves use `verts` and
multi-parts use `parts`, the other being empty.  Vertices are stored as the
padded xyzm quadruples that `get_vertex_xyzm` reads (absent ordinates 0).
-/

inductive Geom (α : Type) where
  | mk (ty : GType) (hasZ hasM : Bool) (verts : List (V4 α)) (parts : List (Geom α))
deriving Repr

namespace Geom

variable {β : Type}

def ty : Geom β → GType
  | .mk t _ _ _ _ => t

def hasZ : Geom β → Bool
  | .mk _ z _ _ _ => z

def hasM : Geom β → Bool
  | .mk _ _ m _ _ => m

def verts : Geom β → List (V4 β)
  | .mk _ _ _ v _ => v

def parts : Geom β → List (Geom β)
  | .mk _ _ _ _ p => p

/-- `geometry::is_multi_part`: POLYGON through GEOMETRY_COLLECTION. -/
def isMultiPart (g : Geom β) : Bool :=
  match g.ty with
  | .polygon | .multiPoint | .multiLinestring | .multiPolygon | .collection => true
  | _ => false

/-- `geometry::is_multi_geom`: MULTI_POINT through GEOMETRY_COLLECTION. -/
def isMultiGeom (g : Geom β) : Bool :=
  match g.ty with
  | .multiPoint | .multiLinestring | .multiPolygon | .collection => true
  | _ => false

/-- `geometry::is_empty`: the `size` field (vertex count for leaves, part
count for multi-parts) is zero. -/
def isEmpty (g : Geom β) : Bool :=
  if g.isMultiPart then g.parts.isEmpty else g.verts.isEmpty

/-- The xy views of the vertex array, as read by `get_vertex_xy`. -/
def xyList (g : Geom β) : List (Vxy β) := g.verts.map V4.xy

end Geom

mutual

/-- `visit_polygons` (sgl.cpp): collects the POLYGON nodes reachable by
descending through non-empty MULTI_POLYGON and GEOMETRY_COLLECTION nodes. -/
def polygonsOf : Geom α → List (Geom α)
  | .mk t z m vs ps =>
    match t with
    | .polygon => [.mk t z m vs ps]
    | .multiPolygon | .collection =>
      if ps.isEmpty then [] else polygonsOfList ps
    | _ => []

/-- The sibling loop of `visit_polygons` over a child list. -/
def polygonsOfList : List (Geom α) → List (Geom α)
  | [] => []
  | g :: gs => polygonsOf g ++ polygonsOfList gs

end

mutual

/-- `visit_lines` (sgl.cpp): collects the LINESTRING nodes reachable by
descending through non-empty MULTI_LINESTRING and GEOMETRY_COLLECTION. -/
def linesOf : Geom α → List (Geom α)
  | .mk t z m vs ps =>
    match t with
    | .linestring => [.mk t z m vs ps]
    | .multiLinestring | .collection =>
      if ps.isEmpty then [] else linesOfList ps
    | _ => []

/-- The sibling loop of `visit_lines` over a child list. -/
def linesOfList : List (Geom α) → List (Geom α)
  | [] => []
  | g :: gs => linesOf g ++ linesOfList gs

end

mutual

/-- `visit_leaf_geometries` (sgl.cpp): collects POINT, LINESTRING and POLYGON
nodes, descending through the non-empty multi-part collection types. -/
def leavesOf : Geom α → List (Geom α)
  | .mk t z m vs ps =>
    match t with
    | .point | .linestring | .polygon => [.mk t z m vs ps]
    | .multiPoint | .multiLinestring | .multiPolygon | .collection =>
      if ps.isEmpty then [] else leavesOfList ps
    | _ => []

/-- The sibling loop of `visit_leaf_geometries` over a child list. -/
def leavesOfList : List (Geom α) → List (Geom α)
  | [] => []
  | g :: gs => leavesOf g ++ leavesOfList gs

end

/-- The loop body of `vertex_array_signed_area` (sgl.cpp): for each interior
index `i` of the ring it adds `(x_i - x_0) * (y_(i-1) - y_(i+1))`, expressed
here over the sliding window of three consecutive vertices. -/
def shoelaceSum (x0 : α) : List (Vxy α) → α
  | [] => 0
  | a :: rest =>
    match rest with
    | b :: c :: _ => (b.x - x0) * (a.y - c.y) + shoelaceSum x0 rest
    | _ => 0

/-- `vertex_array_signed_area` (sgl.cpp): `0` for fewer than three vertices,
otherwise half of the shoelace sum referenced to the first vertex. -/
def vertexArraySignedArea (verts : List (Vxy α)) : α :=
  if verts.length < 3 then 0
  else
    match verts with
    | [] => 0
    | v0 :: _ => shoelaceSum v0.x verts * (1 / 2)

/-- The contribution of one POLYGON node to `ops::get_area` (sgl.cpp):
absolute signed area of the shell minus the absolute signed areas of the
holes; `0` when the polygon has no rings. -/
def polygonArea (g : Geom α) : α :=
  match g.parts with
  | [] => 0
  | shell :: holes =>
    |vertexArraySignedArea shell.xyList| -
      (holes.map fun r => |vertexArraySignedArea r.xyList|).sum

/-- `ops::get_area` (sgl.cpp): accumulates `polygonArea` over all polygons
visited by `visit_polygons`. -/
def getArea (g : Geom α) : α := ((polygonsOf g).map polygonArea).sum

/-- Helper constructing a LINESTRING ring leaf from 2-d vertices (z = m = 0),
as produced by the readers for xy geometries. -/
def ringGeom (vs : List (Vxy ℚ)) : Geom ℚ :=
  .mk .linestring false false (vs.map fun p => ⟨p.x, p.y, 0, 0⟩) []

/-- Whether a polygon node satisfies "holes do not out-measure the shell":
the sum of the absolute signed areas of its holes is at most the absolute
signed area of its shell (vacuously true without rings). -/
def holesWithinShell (p : Geom ℚ) : Prop :=
  match p.parts with
  | [] => True
  | shell :: holes =>
    ((holes.map fun r => |vertexArraySignedArea r.xyList|).sum : ℚ) ≤
      |vertexArraySignedArea shell.xyList|

/-- C3 counterexample: a POLYGON whose single hole has larger absolute area
than its shell makes `get_area` negative, refuting `get_area(g) ≥ 0` as a
universal statement. -/
theorem C3_counterexample :
    getArea (Geom.mk .polygon false false []
      [ringGeom [⟨0, 0⟩, ⟨0, 1⟩, ⟨1, 1⟩, ⟨1, 0⟩, ⟨0, 0⟩],
       ringGeom [⟨0, 0⟩, ⟨0, 10⟩, ⟨10, 10⟩, ⟨10, 0⟩, ⟨0, 0⟩]]) < 0 := by
  norm_num [getArea, polygonsOf, polygonsOfList, polygonArea, ringGeom, Geom.parts,
    Geom.xyList, Geom.verts, V4.xy, vertexArraySignedArea, shoelaceSum, abs]

/-- C3 (amended): `get_area(g) ≥ 0` holds for every geometry in which each
polygon's holes have total absolute signed area at most the shell's absolute
signed area (each polygon's contribution being `|signed_area(shell)| - Σ
|signed_area(hole)|`). -/
theorem C3_getArea_nonneg (g : Geom ℚ)
    (h : ∀ p ∈ polygonsOf g, holesWithinShell p) : 0 ≤ getArea g := by
  apply List.sum_nonneg
  intro a ha
  obtain ⟨p, hp, rfl⟩ := List.mem_map.mp ha
  have hw := h p hp
  unfold holesWithinShell at hw
  unfold polygonArea
  rcases hpp : p.parts with _ | ⟨shell, holes⟩
  · simp [hpp]
  · simp only [hpp] at hw ⊢
    linarith

/-- Witness for C3 at a concrete square polygon without holes. -/
theorem C3_witness :
    (∀ p ∈ polygonsOf (Geom.mk .polygon false false []
        [ringGeom [⟨0, 0⟩, ⟨0, 2⟩, ⟨2, 2⟩, ⟨2, 0⟩, ⟨0, 0⟩]]),
      holesWithinShell p) ∧
    0 ≤ getArea (Geom.mk .polygon false false []
      [ringGeom [⟨0, 0⟩, ⟨0, 2⟩, ⟨2, 2⟩, ⟨2, 0⟩, ⟨0, 0⟩]]) :=
  ⟨by simp [polygonsOf, polygonsOfList, ringGeom, holesWithinShell, Geom.parts],
    C3_getArea_nonneg _
      (by simp [polygonsOf, polygonsOfList, ringGeom, holesWithinShell, Geom.parts])⟩

/-- `polygon::init_from_bbox` (sgl.cpp): builds a POLYGON with a single
5-vertex ring (min,min) → (min,max) → (max,max) → (max,min) → (min,min). -/
def initFromBbox (minX minY maxX maxY : ℚ) : Geom ℚ :=
  .mk .polygon false false []
    [.mk .linestring false false
      [⟨minX, minY, 0, 0⟩, ⟨minX, maxY, 0, 0⟩, ⟨maxX, maxY, 0, 0⟩,
       ⟨maxX, minY, 0, 0⟩, ⟨minX, minY, 0, 0⟩] []]

/-- C5: `init_from_bbox` produces a POLYGON with a single five-vertex closed
ring (min,min), (min,max), (max,max), (max,min), (min,min), whose shoelace
signed area (as computed by `vertex_array_signed_area`) is positive, i.e.
the ring is counter-clockwise in the library's own orientation convention. -/
theorem C5_initFromBbox_ring_ccw (minX minY maxX maxY : ℚ)
    (hx : minX < maxX) (hy : minY < maxY) :
    ((initFromBbox minX minY maxX maxY).parts.map Geom.xyList) =
      [[⟨minX, minY⟩, ⟨minX, maxY⟩, ⟨maxX, maxY⟩, ⟨maxX, minY⟩, ⟨minX, minY⟩]] ∧
    0 < vertexArraySignedArea
      [⟨minX, minY⟩, ⟨minX, maxY⟩, ⟨maxX, maxY⟩, ⟨maxX, minY⟩, (⟨minX, minY⟩ : Vxy ℚ)] := by
  constructor
  · simp [initFromBbox, Geom.xyList, Geom.parts, Geom.verts, V4.xy]
  · have harea : vertexArraySignedArea
        [⟨minX, minY⟩, ⟨minX, maxY⟩, ⟨maxX, maxY⟩, ⟨maxX, minY⟩, (⟨minX, minY⟩ : Vxy ℚ)] =
        (maxX - minX) * (maxY - minY) := by
      simp only [vertexArraySignedArea, shoelaceSum, List.length_cons]
      norm_num
      ring_nf
    rw [harea]
    exact mul_pos (by linarith) (by linarith)

/-- Witness for C5 at the unit box. -/
theorem C5_witness :
    ((0 : ℚ) < 1 ∧ (0 : ℚ) < 1) ∧
    (((initFromBbox 0 0 1 1).parts.map Geom.xyList) =
        [[⟨0, 0⟩, ⟨0, 1⟩, ⟨1, 1⟩, ⟨1, 0⟩, ⟨0, 0⟩]] ∧
      0 < vertexArraySignedArea
        [⟨0, 0⟩, ⟨0, 1⟩, ⟨1, 1⟩, ⟨1, 0⟩, (⟨0, 0⟩ : Vxy ℚ)]) :=
  ⟨⟨by norm_num, by norm_num⟩, C5_initFromBbox_ring_ccw 0 0 1 1 (by norm_num) (by norm_num)⟩


/-!
## Extent initial values (claim C9)

`extent_xy::smallest()` / `extent_xyzm::smallest()` (sgl.hpp) use
`std::numeric_limits<double>::max()` and `::lowest()`, i.e. the largest and
smallest *finite* doubles, not the infinities.  To state this difference a
double value is modelled as an exact rational or an infinity (the claims
settled here involve no NaN). -/

inductive Dbl where
  | fin (q : ℚ)
  | pinf
  | ninf
deriving DecidableEq, Repr

/-- The `<` comparison on modelled double values. -/
def Dbl.blt : Dbl → Dbl → Bool
  | .ninf, .ninf => false
  | .ninf, .fin _ => true
  | .ninf, .pinf => true
  | .fin _, .ninf => false
  | .fin a, .fin b => decide (a < b)
  | .fin _, .pinf => true
  | .pinf, _ => false

/-- `sgl::math::min` (sgl.hpp): `!(b < a) ? a : b`. -/
def mathMinD (a b : Dbl) : Dbl := if Dbl.blt b a then b else a

/-- `sgl::math::max` (sgl.hpp): `(a < b) ? b : a`. -/
def mathMaxD (a b : Dbl) : Dbl := if Dbl.blt a b then b else a

/-- `std::numeric_limits<double>::max()`: the largest finite double,
`(2^53 - 1) * 2^971`. -/
def dblMax : ℚ := (2 ^ 53 - 1) * 2 ^ 971

/-- `std::numeric_limits<double>::lowest()`: `-dblMax`. -/
def dblLowest : ℚ := -dblMax

structure DblVxy where
  x : Dbl
  y : Dbl
deriving DecidableEq, Repr

structure DblV4 where
  x : Dbl
  y : Dbl
  z : Dbl
  m : Dbl
deriving DecidableEq, Repr

structure DblExtentXY where
  emin : DblVxy
  emax : DblVxy
deriving DecidableEq, Repr

structure DblExtentXYZM where
  emin : DblV4
  emax : DblV4
deriving DecidableEq, Repr

/-- `extent_xy::smallest()` (sgl.hpp lines 156-159). -/
def extentXYSmallest : DblExtentXY :=
  ⟨⟨.fin dblMax, .fin dblMax⟩, ⟨.fin dblLowest, .fin dblLowest⟩⟩

/-- `extent_xyzm::smallest()` (sgl.hpp lines 201-206). -/
def extentXYZMSmallest : DblExtentXYZM :=
  ⟨⟨.fin dblMax, .fin dblMax, .fin dblMax, .fin dblMax⟩,
   ⟨.fin dblLowest, .fin dblLowest, .fin dblLowest, .fin dblLowest⟩⟩

/-- The per-vertex extent merge of `ops::get_total_extent_xy` (sgl.cpp
lines 638-641): `min`/`max` of each ordinate. -/
def mergeExtentXY (ext : DblExtentXY) (v : DblVxy) : DblExtentXY :=
  ⟨⟨mathMinD ext.emin.x v.x, mathMinD ext.emin.y v.y⟩,
   ⟨mathMaxD ext.emax.x v.x, mathMaxD ext.emax.y v.y⟩⟩

/-- The per-vertex extent merge of `ops::get_total_extent_xyzm` (sgl.cpp
lines 662-669). -/
def mergeExtentXYZM (ext : DblExtentXYZM) (v : DblV4) : DblExtentXYZM :=
  ⟨⟨mathMinD ext.emin.x v.x, mathMinD ext.emin.y v.y,
    mathMinD ext.emin.z v.z, mathMinD ext.emin.m v.m⟩,
   ⟨mathMaxD ext.emax.x v.x, mathMaxD ext.emax.y v.y,
    mathMaxD ext.emax.z v.z, mathMaxD ext.emax.m v.m⟩⟩

theorem mathMinD_dblMax (x : ℚ) (h : x ≤ dblMax) :
    mathMinD (.fin dblMax) (.fin x) = .fin x := by
  unfold mathMinD Dbl.blt
  rcases lt_or_eq_of_le h with h' | h'
  · simp [h']
  · simp [h', lt_irrefl]

theorem mathMaxD_dblLowest (x : ℚ) (h : dblLowest ≤ x) :
    mathMaxD (.fin dblLowest) (.fin x) = .fin x := by
  unfold mathMaxD Dbl.blt
  rcases lt_or_eq_of_le h with h' | h'
  · simp [h']
  · simp [← h', lt_irrefl]

/-- C9 counterexample: `smallest()` does not initialise the min ordinates to
+∞ nor the max ordinates to −∞; it uses the largest/lowest finite double. -/
theorem C9_counterexample :
    extentXYSmallest.emin.x ≠ Dbl.pinf ∧ extentXYSmallest.emax.x ≠ Dbl.ninf ∧
    extentXYZMSmallest.emin.z ≠ Dbl.pinf ∧ extentXYZMSmallest.emax.m ≠ Dbl.ninf := by
  refine ⟨?_, ?_, ?_, ?_⟩ <;> intro h <;> simpa [extentXYSmallest, extentXYZMSmallest] using h

/-- C9 (amended): `extent_xy::smallest()` (and `extent_xyzm::smallest()`)
returns an extent whose min ordinates are all the largest finite double
`(2^53-1)*2^971` and whose max ordinates are all its negation, so that
merging any representable finite vertex into it via min/max yields exactly
that vertex's ordinates. -/
theorem C9_extent_smallest_merge :
    (extentXYSmallest = ⟨⟨.fin dblMax, .fin dblMax⟩, ⟨.fin dblLowest, .fin dblLowest⟩⟩ ∧
     extentXYZMSmallest =
       ⟨⟨.fin dblMax, .fin dblMax, .fin dblMax, .fin dblMax⟩,
        ⟨.fin dblLowest, .fin dblLowest, .fin dblLowest, .fin dblLowest⟩⟩) ∧
    (∀ x y : ℚ, dblLowest ≤ x → x ≤ dblMax → dblLowest ≤ y → y ≤ dblMax →
      mergeExtentXY extentXYSmallest ⟨.fin x, .fin y⟩ =
        ⟨⟨.fin x, .fin y⟩, ⟨.fin x, .fin y⟩⟩) ∧
    (∀ x y z m : ℚ, dblLowest ≤ x → x ≤ dblMax → dblLowest ≤ y → y ≤ dblMax →
      dblLowest ≤ z → z ≤ dblMax → dblLowest ≤ m → m ≤ dblMax →
      mergeExtentXYZM extentXYZMSmallest ⟨.fin x, .fin y, .fin z, .fin m⟩ =
        ⟨⟨.fin x, .fin y, .fin z, .fin m⟩, ⟨.fin x, .fin y, .fin z, .fin m⟩⟩) := by
  refine ⟨⟨rfl, rfl⟩, ?_, ?_⟩
  · intro x y hx1 hx2 hy1 hy2
    unfold mergeExtentXY extentXYSmallest
    rw [mathMinD_dblMax x hx2, mathMinD_dblMax y hy2,
      mathMaxD_dblLowest x hx1, mathMaxD_dblLowest y hy1]
  · intro x y z m hx1 hx2 hy1 hy2 hz1 hz2 hm1 hm2
    unfold mergeExtentXYZM extentXYZMSmallest
    rw [mathMinD_dblMax x hx2, mathMinD_dblMax y hy2, mathMinD_dblMax z hz2,
      mathMinD_dblMax m hm2, mathMaxD_dblLowest x hx1, mathMaxD_dblLowest y hy1,
      mathMaxD_dblLowest z hz1, mathMaxD_dblLowest m hm1]

/-- Witness for C9 at the vertex (1, 2) and (1, 2, 3, 4). -/
theorem C9_witness :
    (dblLowest ≤ (1 : ℚ) ∧ (1 : ℚ) ≤ dblMax ∧ dblLowest ≤ (2 : ℚ) ∧ (2 : ℚ) ≤ dblMax) ∧
    mergeExtentXY extentXYSmallest ⟨.fin 1, .fin 2⟩ =
      ⟨⟨.fin 1, .fin 2⟩, ⟨.fin 1, .fin 2⟩⟩ :=
  have h1 : dblLowest ≤ (1 : ℚ) := by norm_num [dblLowest, dblMax]
  have h2 : (1 : ℚ) ≤ dblMax := by norm_num [dblMax]
  have h3 : dblLowest ≤ (2 : ℚ) := by norm_num [dblLowest, dblMax]
  have h4 : (2 : ℚ) ≤ dblMax := by norm_num [dblMax]
  ⟨⟨h1, h2, h3, h4⟩, C9_extent_smallest_merge.2.1 1 2 h1 h2 h3 h4⟩

/-!
## Raw vertex-array reads and `linestring::is_closed` (claim C10)
-/

/-- `geometry::get_vertex_xyzm` (sgl.hpp): `memcpy` of `width` doubles of
vertex `i` from the flat array into a zero-initialised xyzm quadruple,
i.e. absent trailing ordinates read as 0. -/
def readVertexXYZM (width : ℕ) (flat : List ℚ) (i : ℕ) : V4 ℚ :=
  let chunk := (flat.drop (i * width)).take width
  ⟨chunk.getD 0 0, chunk.getD 1 0, chunk.getD 2 0, chunk.getD 3 0⟩

/-- `linestring::is_closed` (sgl.cpp lines 756-768) over the raw vertex
array: false for fewer than two vertices, otherwise ordinate-wise equality
of the first and last vertex as read by `get_vertex_xyzm`. -/
def linestringIsClosed (width count : ℕ) (flat : List ℚ) : Bool :=
  if count < 2 then false
  else
    let first := readVertexXYZM width flat 0
    let last := readVertexXYZM width flat (count - 1)
    decide (first.x = last.x ∧ first.y = last.y ∧ first.z = last.z ∧ first.m = last.m)

/-- C10: `linestring::is_closed` returns false for every linestring with
fewer than two vertices, and for two or more vertices it returns true
exactly when the first and last vertices agree in all four xyzm ordinates,
absent ordinates reading as 0. -/
theorem C10_isClosed_spec (width count : ℕ) (flat : List ℚ) :
    (count < 2 → linestringIsClosed width count flat = false) ∧
    (2 ≤ count → (linestringIsClosed width count flat = true ↔
      readVertexXYZM width flat 0 = readVertexXYZM width flat (count - 1))) := by
  constructor
  · intro h
    unfold linestringIsClosed
    rw [if_pos h]
  · intro h
    unfold linestringIsClosed
    rw [if_neg (not_lt.mpr h)]
    simp only [decide_eq_true_eq]
    constructor
    · rintro ⟨h1, h2, h3, h4⟩
      cases hf : readVertexXYZM width flat 0
      cases hl : readVertexXYZM width flat (count - 1)
      simp_all
    · intro h'
      rw [h']
      exact ⟨rfl, rfl, rfl, rfl⟩

/-- Witness for C10: an XY linestring of two equal vertices is closed, one
of two distinct vertices is not, and the empty linestring reports false. -/
theorem C10_witness :
    ((0 : ℕ) < 2 ∧ linestringIsClosed 2 0 [] = false) ∧
    (2 ≤ 2 ∧ (linestringIsClosed 2 2 [1, 2, 1, 2] = true ↔
      readVertexXYZM 2 [1, 2, 1, 2] 0 = readVertexXYZM 2 [1, 2, 1, 2] (2 - 1))) :=
  ⟨⟨by norm_num, (C10_isClosed_spec 2 0 []).1 (by norm_num)⟩,
   ⟨le_refl 2, (C10_isClosed_spec 2 2 [1, 2, 1, 2]).2 (le_refl 2)⟩⟩


/-!
## WKB reader (claim C4)

`wkb_reader::try_parse` (sgl.cpp lines 4001-4174) modelled over a byte list.
Doubles are carried as their 8 raw bytes (normalised to little-endian order,
mirroring the byte swap the reader performs for big-endian payloads); their
numeric values never influence control flow except for the NaN test of
`nan_as_empty`, which is computed on the bit pattern.  The reader's
`stack_buf` push/decrement indices are additionally recorded in a high-water
mark `maxWrite` so that out-of-bounds accesses of the declared
`uint32_t stack_buf[16]` can be stated.  The `has_any_z`/`has_any_m`
introspection counters are not modelled (no claim mentions them).  The fuel
`2 * input.length + 8` of `wkbTryParse` dominates the loop's step count:
every parsed geometry consumes at least 5 bytes and every stack pop matches
an earlier 9-byte multi-part header. -/

/-- `sgl::wkb_reader_error` (sgl.hpp). -/
inductive WkbError where
  | OK
  | UNSUPPORTED_TYPE
  | OUT_OF_BOUNDS
  | RECURSION_LIMIT
  | MIXED_ZM
  | INVALID_CHILD_TYPE
deriving DecidableEq, Repr

/-- `wkb_reader::MAX_STACK_DEPTH` (sgl.hpp line 839). -/
def MAX_STACK_DEPTH : ℕ := 32

/-- The declared element count of `uint32_t stack_buf[16]` (sgl.hpp line 868). -/
def STACK_BUF_LEN : ℕ := 16

/-- Geometry tree built by the WKB reader; leaf vertices are raw byte runs. -/
inductive WkbGeom where
  | mk (ty : GType) (hasZ hasM : Bool) (verts : List (List ℕ)) (parts : List WkbGeom)

def WkbGeom.wty : WkbGeom → GType
  | .mk t _ _ _ _ => t

/-- `wkb_reader` options (all default to `false` in the constructor). -/
structure WkbOpts where
  copyVertices : Bool
  allowMixedZm : Bool
  nanAsEmpty : Bool

def wkbDefaultOpts : WkbOpts := ⟨false, false, false⟩

/-- `wkb_reader::read_u8`. -/
def readU8 : List ℕ → Option (ℕ × List ℕ)
  | [] => none
  | b :: r => some (b, r)

/-- `wkb_reader::read_u32`, little- or big-endian. -/
def readU32 (le : Bool) : List ℕ → Option (ℕ × List ℕ)
  | b0 :: b1 :: b2 :: b3 :: r =>
    some (if le then b0 + 256 * b1 + 65536 * b2 + 16777216 * b3
          else b3 + 256 * b2 + 65536 * b1 + 16777216 * b0, r)
  | _ => none

/-- Reads `n` raw bytes, or fails out of bounds. -/
def readChunk (n : ℕ) (bs : List ℕ) : Option (List ℕ × List ℕ) :=
  if bs.length < n then none else some (bs.take n, bs.drop n)

/-- `wkb_reader::read_f64`: 8 bytes, byte-swapped when big-endian, so the
result is always the little-endian byte run of the double. -/
def readF64 (le : Bool) (bs : List ℕ) : Option (List ℕ × List ℕ) :=
  match readChunk 8 bs with
  | none => none
  | some (c, r) => some (if le then c else c.reverse, r)

/-- The IEEE-754 bit pattern of an LE byte run. -/
def f64Bits : List ℕ → ℕ
  | [] => 0
  | b :: r => b + 256 * f64Bits r

/-- `std::isnan` on the bit pattern: exponent all ones, mantissa nonzero. -/
def f64IsNaN (bs : List ℕ) : Bool :=
  decide ((f64Bits bs / 2 ^ 52) % 2 ^ 11 = 2 ^ 11 - 1) && decide (f64Bits bs % 2 ^ 52 ≠ 0)

/-- Reads `n` doubles, returning their LE byte runs. -/
def readDoubles (le : Bool) : ℕ → List ℕ → Option (List (List ℕ) × List ℕ)
  | 0, bs => some ([], bs)
  | n + 1, bs =>
    match readF64 le bs with
    | none => none
    | some (c, r) =>
      match readDoubles le n r with
      | none => none
      | some (cs, r') => some (c :: cs, r')

/-- `wkb_reader::read_point`: reads `2 + z + m` doubles; with `nan_as_empty`
an all-NaN point becomes an empty vertex array. -/
def readPointVerts (o : WkbOpts) (le z m : Bool) (bs : List ℕ) :
    Option (List (List ℕ) × List ℕ) :=
  let dims := 2 + (if z then 1 else 0) + (if m then 1 else 0)
  match readDoubles le dims bs with
  | none => none
  | some (cs, r) =>
    if o.nanAsEmpty && cs.all f64IsNaN then some ([], r)
    else some ([cs.flatten], r)

/-- Splits a byte run into `count` vertices of `width` doubles each,
byte-swapping each double when big-endian. -/
def splitVerts (le : Bool) (width : ℕ) : ℕ → List ℕ → List (List ℕ)
  | 0, _ => []
  | n + 1, bs =>
    let v := bs.take (width * 8)
    let v' := if le then v else ((List.range width).map fun i =>
      ((v.drop (i * 8)).take 8).reverse).flatten
    v' :: splitVerts le width n (bs.drop (width * 8))

/-- `wkb_reader::read_line`: vertex count then `count × width` doubles. -/
def readLineVerts (le z m : Bool) (bs : List ℕ) : Option (List (List ℕ) × List ℕ) :=
  match readU32 le bs with
  | none => none
  | some (count, r) =>
    let width := 2 + (if z then 1 else 0) + (if m then 1 else 0)
    match readChunk (count * width * 8) r with
    | none => none
    | some (c, r') => some (splitVerts le width count c, r')

/-- The ring loop of the POLYGON case of `wkb_reader::try_parse`. -/
def readRings (le z m : Bool) : ℕ → List ℕ → Option (List WkbGeom × List ℕ)
  | 0, bs => some ([], bs)
  | n + 1, bs =>
    match readLineVerts le z m bs with
    | none => none
    | some (vs, r) =>
      match readRings le z m n r with
      | none => none
      | some (rings, r') => some (WkbGeom.mk .linestring z m vs [] :: rings, r')

/-- Geometry kind from the low decimal digits of the type tag. -/
def gtypeOfNum (n : ℕ) : Option GType :=
  match n with
  | 1 => some .point
  | 2 => some .linestring
  | 3 => some .polygon
  | 4 => some .multiPoint
  | 5 => some .multiLinestring
  | 6 => some .multiPolygon
  | 7 => some .collection
  | _ => none

/-- A multi-part geometry under construction: type, flags, completed
children, and the remaining child count (its `stack_buf` slot). -/
structure WkbFrame where
  fty : GType
  fz : Bool
  fm : Bool
  children : List WkbGeom
  remaining : ℕ

/-- Running reader state: remaining input, the root's Z/M flags once parsed,
the sticky mixed-ZM flag, and the ghost high-water mark of `stack_buf`
write indices. -/
structure WkbRun where
  rest : List ℕ
  rootFlags : Option (Bool × Bool)
  mixedZm : Bool
  maxWrite : ℕ

/-- Phase of the `try_parse` loop: parsing a new geometry header or
finishing a completed geometry against the enclosing stack. -/
inductive WkbMode where
  | parse
  | finish (g : WkbGeom)

/-- The child-type compatibility check of the inner loop. -/
def wkbChildMismatch (pt ct : GType) : Bool :=
  (pt = .multiPoint && ct ≠ .point) ||
  (pt = .multiLinestring && ct ≠ .linestring) ||
  (pt = .multiPolygon && ct ≠ .polygon)

/-- The main loop of `wkb_reader::try_parse`, fuelled for structural
recursion; on success returns the parsed tree and the `stack_buf`
write high-water mark. -/
def wkbLoop (o : WkbOpts) : ℕ → WkbMode → WkbRun → List WkbFrame →
    Except WkbError (WkbGeom × ℕ)
  | 0, _, _, _ => .error .OUT_OF_BOUNDS
  | fuel + 1, .finish g, st, stack =>
    match stack with
    | [] => .ok (g, st.maxWrite)
    | f :: rest =>
      if wkbChildMismatch f.fty g.wty then .error .INVALID_CHILD_TYPE
      else
        -- stack_buf[stack_depth - 1]-- : a write at index rest.length
        let st' := { st with maxWrite := max st.maxWrite rest.length }
        let rem := f.remaining - 1
        if 0 < rem then
          wkbLoop o fuel .parse st'
            ({ f with children := f.children ++ [g], remaining := rem } :: rest)
        else
          wkbLoop o fuel (.finish (WkbGeom.mk f.fty f.fz f.fm [] (f.children ++ [g]))) st' rest
  | fuel + 1, .parse, st, stack =>
    match readU8 st.rest with
    | none => .error .OUT_OF_BOUNDS
    | some (b, r1) =>
      let le := b ≠ 0
      match readU32 le r1 with
      | none => .error .OUT_OF_BOUNDS
      | some (tid, r2) =>
        let low := tid % 65536
        let flags := low / 1000
        let hasZ := flags = 1 ∨ flags = 3 ∨ (tid / 2 ^ 31) % 2 = 1
        let hasM := flags = 2 ∨ flags = 3 ∨ (tid / 2 ^ 30) % 2 = 1
        let hasSrid := (tid / 2 ^ 29) % 2 = 1
        match (if hasSrid then (readU32 le r2).map Prod.snd else some r2) with
        | none => .error .OUT_OF_BOUNDS
        | some r3 =>
          let z := decide hasZ
          let m := decide hasM
          let (rz, rm, st1) :=
            match st.rootFlags with
            | none => (z, m, { st with rest := r3, rootFlags := some (z, m) })
            | some (a, c) => (a, c, { st with rest := r3 })
          if ¬st1.mixedZm ∧ (rm ≠ m ∨ rz ≠ z) ∧ ¬o.allowMixedZm then .error .MIXED_ZM
          else
            let st2 := if ¬st1.mixedZm ∧ (rm ≠ m ∨ rz ≠ z) then
              { st1 with mixedZm := true } else st1
            match gtypeOfNum (low % 1000) with
            | none => .error .UNSUPPORTED_TYPE
            | some t =>
              match t with
              | .point =>
                match readPointVerts o le z m st2.rest with
                | none => .error .OUT_OF_BOUNDS
                | some (vs, r4) =>
                  wkbLoop o fuel (.finish (WkbGeom.mk .point z m vs []))
                    { st2 with rest := r4 } stack
              | .linestring =>
                match readLineVerts le z m st2.rest with
                | none => .error .OUT_OF_BOUNDS
                | some (vs, r4) =>
                  wkbLoop o fuel (.finish (WkbGeom.mk .linestring z m vs []))
                    { st2 with rest := r4 } stack
              | .polygon =>
                match readU32 le st2.rest with
                | none => .error .OUT_OF_BOUNDS
                | some (ringCount, r4) =>
                  match readRings le z m ringCount r4 with
                  | none => .error .OUT_OF_BOUNDS
                  | some (rings, r5) =>
                    wkbLoop o fuel (.finish (WkbGeom.mk .polygon z m [] rings))
                      { st2 with rest := r5 } stack
              | .multiPoint | .multiLinestring | .multiPolygon | .collection =>
                if MAX_STACK_DEPTH ≤ stack.length then .error .RECURSION_LIMIT
                else
                  match readU32 le st2.rest with
                  | none => .error .OUT_OF_BOUNDS
                  | some (count, r4) =>
                    if count = 0 then
                      wkbLoop o fuel (.finish (WkbGeom.mk t z m [] []))
                        { st2 with rest := r4 } stack
                    else
                      -- stack_buf[stack_depth++] = count : write at stack.length
                      wkbLoop o fuel .parse
                        { rest := r4, rootFlags := st2.rootFlags, mixedZm := st2.mixedZm,
                          maxWrite := max st2.maxWrite stack.length }
                        (⟨t, z, m, [], count⟩ :: stack)
              | _ => .error .UNSUPPORTED_TYPE

/-- `wkb_reader::try_parse` over a whole input. -/
def wkbTryParse (o : WkbOpts) (input : List ℕ) : Except WkbError (WkbGeom × ℕ) :=
  wkbLoop o (2 * input.length + 8) .parse ⟨input, none, false, 0⟩ []

/-- The reader's error after parsing (OK on success). -/
def wkbResultError (o : WkbOpts) (input : List ℕ) : WkbError :=
  match wkbTryParse o input with
  | .ok _ => .OK
  | .error e => e

/-- The `stack_buf` write high-water mark of a successful parse. -/
def wkbMaxWrite (o : WkbOpts) (input : List ℕ) : Option ℕ :=
  match wkbTryParse o input with
  | .ok (_, w) => some w
  | .error _ => none

/-- `n` GEOMETRYCOLLECTION headers (LE, count 1) wrapped around a POINT. -/
def nestColl : ℕ → List ℕ
  | 0 => 1 :: 1 :: 0 :: 0 :: 0 :: List.replicate 16 0
  | n + 1 => 1 :: 7 :: 0 :: 0 :: 0 :: 1 :: 0 :: 0 :: 0 :: nestColl n

set_option maxRecDepth 16000 in
/-- C4: the recursion cap of 32 behaves as claimed (33 nested collections
are rejected with RECURSION_LIMIT, 32 parse fine), but the in-bounds part of
the claim is false of the code: parsing 17 nested collections succeeds while
writing `stack_buf[16]`, one past the declared `uint32_t stack_buf[16]`. -/
theorem C4_wkb_stack_buf_overflow :
    STACK_BUF_LEN = 16 ∧ MAX_STACK_DEPTH = 32 ∧
    wkbResultError wkbDefaultOpts (nestColl 33) = .RECURSION_LIMIT ∧
    wkbResultError wkbDefaultOpts (nestColl 32) = .OK ∧
    wkbResultError wkbDefaultOpts (nestColl 17) = .OK ∧
    wkbMaxWrite wkbDefaultOpts (nestColl 17) = some 16 ∧
    ¬(16 < STACK_BUF_LEN) := by
  refine ⟨rfl, rfl, ?_, ?_, ?_, ?_, by decide⟩ <;> decide


/-!
## WKT reader (claim C8)

`wkt_reader::try_parse` (sgl.cpp lines 3547-3813) modelled as a fuelled
recursive-descent parser over a character list.  The iterative
parent-pointer walk of the C++ main loop corresponds to the recursion into
GEOMETRYCOLLECTION children here; each nesting level consumes at least one
character, so fuel `length + 1` suffices.  Error strings follow the source
(quotation marks around the expected character are omitted). -/

/-- `wkt_reader::match_ws`. -/
def wktSkipWs (cs : List Char) : List Char := cs.dropWhile fun c => c.isWhitespace

/-- `wkt_reader::match_str`: case-insensitive keyword match followed by
whitespace skip.  Returns the rest on success. -/
def wktMatchStrAux : List Char → List Char → Option (List Char)
  | [], cs => some cs
  | _ :: _, [] => none
  | k :: ks, c :: cs => if k.toLower = c.toLower then wktMatchStrAux ks cs else none

def wktMatchStr (s : String) (cs : List Char) : Option (List Char) :=
  (wktMatchStrAux s.toList cs).map wktSkipWs

/-- `wkt_reader::match_char`: case-insensitive single character. -/
def wktMatchChar (ch : Char) (cs : List Char) : Option (List Char) :=
  match cs with
  | [] => none
  | c :: rest => if c.toLower = ch.toLower then some (wktSkipWs rest) else none

def digitVal (c : Char) : ℕ := c.toNat - 48

def digitsToNat (ds : List Char) : ℕ := ds.foldl (fun acc c => 10 * acc + digitVal c) 0

/-- `wkt_reader::match_number`: sign, digits, optional fraction, optional
exponent (consumed only when it carries digits, as `strtod` does), exact
rational value. -/
def wktMatchNumber (cs : List Char) : Option (ℚ × List Char) :=
  let (sgn, cs1) : ℚ × List Char :=
    match cs with
    | '+' :: r => (1, r)
    | '-' :: r => (-1, r)
    | _ => (1, cs)
  let ds := cs1.takeWhile fun c => c.isDigit
  let cs2 := cs1.dropWhile fun c => c.isDigit
  let (fs, cs3) :=
    match cs2 with
    | '.' :: r => (r.takeWhile (fun c : Char => c.isDigit), r.dropWhile (fun c : Char => c.isDigit))
    | _ => ([], cs2)
  if ds.isEmpty && fs.isEmpty then none
  else
    let mantissa : ℚ := sgn * ((digitsToNat ds : ℚ) +
      (digitsToNat fs : ℚ) / ((10 : ℚ) ^ fs.length))
    let (value, cs4) : ℚ × List Char :=
      match cs3 with
      | e :: r =>
        if e.toLower = 'e' then
          let (esgn, r1) : Bool × List Char :=
            match r with
            | '+' :: r' => (false, r')
            | '-' :: r' => (true, r')
            | _ => (false, r)
          let es := r1.takeWhile (fun c : Char => c.isDigit)
          let r2 := r1.dropWhile (fun c : Char => c.isDigit)
          if es.isEmpty then (mantissa, cs3)
          else if esgn then (mantissa / (10 : ℚ) ^ digitsToNat es, r2)
          else (mantissa * (10 : ℚ) ^ digitsToNat es, r2)
        else (mantissa, cs3)
      | [] => (mantissa, cs3)
    some (value, wktSkipWs cs4)

/-- Fills `double vert[4] = {0,0,0,0}` from the first `stride` parsed
ordinates. -/
def pad4 (l : List ℚ) : V4 ℚ := ⟨l.getD 0 0, l.getD 1 0, l.getD 2 0, l.getD 3 0⟩

/-- Reads `stride` numbers (the per-vertex loop bodies of try_parse). -/
def wktReadNums : ℕ → List Char → Except String (List ℚ × List Char)
  | 0, cs => .ok ([], cs)
  | n + 1, cs =>
    match wktMatchNumber cs with
    | none => .error "Expected number"
    | some (v, cs') =>
      match wktReadNums n cs' with
      | .error e => .error e
      | .ok (vs, cs'') => .ok (v :: vs, cs'')

/-- The `do { vertex } while (match_char(','))` loops of try_parse. -/
def wktReadVertList (stride : ℕ) : ℕ → List Char → Except String (List (V4 ℚ) × List Char)
  | 0, _ => .error "Expected number"
  | fuel + 1, cs =>
    match wktReadNums stride cs with
    | .error e => .error e
    | .ok (vs, cs1) =>
      match wktMatchChar ',' cs1 with
      | none => .ok ([pad4 vs], cs1)
      | some cs2 =>
        match wktReadVertList stride fuel cs2 with
        | .error e => .error e
        | .ok (rest, cs3) => .ok (pad4 vs :: rest, cs3)

/-- The ring loop of the POLYGON case: each ring is `EMPTY` or a
parenthesised vertex list, built as a LINESTRING child. -/
def wktReadRings (z m : Bool) (stride : ℕ) : ℕ → List Char →
    Except String (List (Geom ℚ) × List Char)
  | 0, _ => .error "Expected character: ("
  | fuel + 1, cs =>
    match wktMatchStr "EMPTY" cs with
    | some cs1 =>
      match wktMatchChar ',' cs1 with
      | none => .ok ([Geom.mk .linestring z m [] []], cs1)
      | some cs2 =>
        match wktReadRings z m stride fuel cs2 with
        | .error e => .error e
        | .ok (rest, cs3) => .ok (Geom.mk .linestring z m [] [] :: rest, cs3)
    | none =>
      match wktMatchChar '(' cs with
      | none => .error "Expected character: ("
      | some cs1 =>
        match wktReadVertList stride (cs1.length + 1) cs1 with
        | .error e => .error e
        | .ok (vs, cs2) =>
          match wktMatchChar ')' cs2 with
          | none => .error "Expected character: )"
          | some cs3 =>
            match wktMatchChar ',' cs3 with
            | none => .ok ([Geom.mk .linestring z m vs []], cs3)
            | some cs4 =>
              match wktReadRings z m stride fuel cs4 with
              | .error e => .error e
              | .ok (rest, cs5) => .ok (Geom.mk .linestring z m vs [] :: rest, cs5)

/-- The MULTIPOINT item loop: optionally parenthesised `EMPTY` or vertex. -/
def wktReadMultiPointItems (z m : Bool) (stride : ℕ) : ℕ → List Char →
    Except String (List (Geom ℚ) × List Char)
  | 0, _ => .error "Expected number"
  | fuel + 1, cs =>
    let (hasParen, cs1) :=
      match wktMatchChar '(' cs with
      | some r => (true, r)
      | none => (false, cs)
    let inner : Except String (List (V4 ℚ) × List Char) :=
      match wktMatchStr "EMPTY" cs1 with
      | some r => .ok ([], r)
      | none =>
        match wktReadNums stride cs1 with
        | .error e => .error e
        | .ok (vs, r) => .ok ([pad4 vs], r)
    match inner with
    | .error e => .error e
    | .ok (vs, cs2) =>
      let closed : Except String (List Char) :=
        if hasParen then
          match wktMatchChar ')' cs2 with
          | none => .error "Expected character: )"
          | some r => .ok r
        else .ok cs2
      match closed with
      | .error e => .error e
      | .ok cs3 =>
        match wktMatchChar ',' cs3 with
        | none => .ok ([Geom.mk .point z m vs []], cs3)
        | some cs4 =>
          match wktReadMultiPointItems z m stride fuel cs4 with
          | .error e => .error e
          | .ok (rest, cs5) => .ok (Geom.mk .point z m vs [] :: rest, cs5)

/-- The MULTILINESTRING item loop. -/
def wktReadMultiLineItems (z m : Bool) (stride : ℕ) : ℕ → List Char →
    Except String (List (Geom ℚ) × List Char)
  | 0, _ => .error "Expected character: ("
  | fuel + 1, cs =>
    let inner : Except String (List (V4 ℚ) × List Char) :=
      match wktMatchStr "EMPTY" cs with
      | some r => .ok ([], r)
      | none =>
        match wktMatchChar '(' cs with
        | none => .error "Expected character: ("
        | some cs1 =>
          match wktReadVertList stride (cs1.length + 1) cs1 with
          | .error e => .error e
          | .ok (vs, cs2) =>
            match wktMatchChar ')' cs2 with
            | none => .error "Expected character: )"
            | some cs3 => .ok (vs, cs3)
    match inner with
    | .error e => .error e
    | .ok (vs, cs2) =>
      match wktMatchChar ',' cs2 with
      | none => .ok ([Geom.mk .linestring z m vs []], cs2)
      | some cs3 =>
        match wktReadMultiLineItems z m stride fuel cs3 with
        | .error e => .error e
        | .ok (rest, cs4) => .ok (Geom.mk .linestring z m vs [] :: rest, cs4)

/-- The MULTIPOLYGON item loop. -/
def wktReadMultiPolyItems (z m : Bool) (stride : ℕ) : ℕ → List Char →
    Except String (List (Geom ℚ) × List Char)
  | 0, _ => .error "Expected character: ("
  | fuel + 1, cs =>
    let inner : Except String (List (Geom ℚ) × List Char) :=
      match wktMatchStr "EMPTY" cs with
      | some r => .ok ([], r)
      | none =>
        match wktMatchChar '(' cs with
        | none => .error "Expected character: ("
        | some cs1 =>
          match wktReadRings z m stride (cs1.length + 1) cs1 with
          | .error e => .error e
          | .ok (rings, cs2) =>
            match wktMatchChar ')' cs2 with
            | none => .error "Expected character: )"
            | some cs3 => .ok (rings, cs3)
    match inner with
    | .error e => .error e
    | .ok (rings, cs2) =>
      match wktMatchChar ',' cs2 with
      | none => .ok ([Geom.mk .polygon z m [] rings], cs2)
      | some cs3 =>
        match wktReadMultiPolyItems z m stride fuel cs3 with
        | .error e => .error e
        | .ok (rest, cs4) => .ok (Geom.mk .polygon z m [] rings :: rest, cs4)

/-- Keyword dispatch of the main loop, in source order. -/
def wktMatchType (cs : List Char) : Option (GType × List Char) :=
  match wktMatchStr "POINT" cs with
  | some r => some (.point, r)
  | none =>
  match wktMatchStr "LINESTRING" cs with
  | some r => some (.linestring, r)
  | none =>
  match wktMatchStr "POLYGON" cs with
  | some r => some (.polygon, r)
  | none =>
  match wktMatchStr "MULTIPOINT" cs with
  | some r => some (.multiPoint, r)
  | none =>
  match wktMatchStr "MULTILINESTRING" cs with
  | some r => some (.multiLinestring, r)
  | none =>
  match wktMatchStr "MULTIPOLYGON" cs with
  | some r => some (.multiPolygon, r)
  | none =>
  match wktMatchStr "GEOMETRYCOLLECTION" cs with
  | some r => some (.collection, r)
  | none =>
  match wktMatchStr "INVALID" cs with
  | some r => some (.invalid, r)
  | none => none

/-- Task of the fuelled main recursion: parse a geometry (with the root
flags once known), or continue a GEOMETRYCOLLECTION child list. -/
inductive WktTask where
  | geom (rootFlags : Option (Bool × Bool))
  | children (rf : Bool × Bool) (z m : Bool) (acc : List (Geom ℚ))

/-- The optional `Z` / `M` suffix flags after the type keyword. -/
def wktZM (cs1 : List Char) : Bool × Bool × List Char :=
  match wktMatchChar 'z' cs1 with
  | some r =>
    (match wktMatchChar 'm' r with
     | some r2 => (true, true, r2)
     | none => (true, false, r))
  | none =>
    match wktMatchChar 'm' cs1 with
    | some r2 => (false, true, r2)
    | none => (false, false, cs1)

/-- The main loop of `wkt_reader::try_parse`. -/
def wktGo : ℕ → WktTask → List Char → Except String (Geom ℚ × List Char)
  | 0, _, _ => .error "Expected geometry type"
  | fuel + 1, .children rf z m acc, cs =>
    match wktMatchChar ',' cs with
    | some cs1 =>
      match wktGo fuel (.geom (some rf)) cs1 with
      | .error e => .error e
      | .ok (child, cs2) => wktGo fuel (.children rf z m (acc ++ [child])) cs2
    | none =>
      match wktMatchChar ')' cs with
      | none => .error "Expected character: )"
      | some cs1 => .ok (Geom.mk .collection z m [] acc, cs1)
  | fuel + 1, .geom rootFlags, cs =>
    match wktMatchType cs with
    | none => .error "Expected geometry type"
    | some (t, cs1) =>
      let (z, m, cs3) := wktZM cs1
      let rf := rootFlags.getD (z, m)
      if m ≠ rf.2 ∨ z ≠ rf.1 then .error "Mixed Z and M values are not supported"
      else
        let stride := 2 + (if z then 1 else 0) + (if m then 1 else 0)
        match wktMatchStr "EMPTY" cs3 with
        | some cs4 => .ok (Geom.mk t z m [] [], cs4)
        | none =>
          match t with
          | .point =>
            match wktMatchChar '(' cs3 with
            | none => .error "Expected character: ("
            | some cs4 =>
              match wktReadNums stride cs4 with
              | .error e => .error e
              | .ok (vs, cs5) =>
                match wktMatchChar ')' cs5 with
                | none => .error "Expected character: )"
                | some cs6 => .ok (Geom.mk .point z m [pad4 vs] [], cs6)
          | .linestring =>
            match wktMatchChar '(' cs3 with
            | none => .error "Expected character: ("
            | some cs4 =>
              match wktReadVertList stride (cs4.length + 1) cs4 with
              | .error e => .error e
              | .ok (vs, cs5) =>
                match wktMatchChar ')' cs5 with
                | none => .error "Expected character: )"
                | some cs6 => .ok (Geom.mk .linestring z m vs [], cs6)
          | .polygon =>
            match wktMatchChar '(' cs3 with
            | none => .error "Expected character: ("
            | some cs4 =>
              match wktReadRings z m stride (cs4.length + 1) cs4 with
              | .error e => .error e
              | .ok (rings, cs5) =>
                match wktMatchChar ')' cs5 with
                | none => .error "Expected character: )"
                | some cs6 => .ok (Geom.mk .polygon z m [] rings, cs6)
          | .multiPoint =>
            match wktMatchChar '(' cs3 with
            | none => .error "Expected character: ("
            | some cs4 =>
              match wktReadMultiPointItems z m stride (cs4.length + 1) cs4 with
              | .error e => .error e
              | .ok (items, cs5) =>
                match wktMatchChar ')' cs5 with
                | none => .error "Expected character: )"
                | some cs6 => .ok (Geom.mk .multiPoint z m [] items, cs6)
          | .multiLinestring =>
            match wktMatchChar '(' cs3 with
            | none => .error "Expected character: ("
            | some cs4 =>
              match wktReadMultiLineItems z m stride (cs4.length + 1) cs4 with
              | .error e => .error e
              | .ok (items, cs5) =>
                match wktMatchChar ')' cs5 with
                | none => .error "Expected character: )"
                | some cs6 => .ok (Geom.mk .multiLinestring z m [] items, cs6)
          | .multiPolygon =>
            match wktMatchChar '(' cs3 with
            | none => .error "Expected character: ("
            | some cs4 =>
              match wktReadMultiPolyItems z m stride (cs4.length + 1) cs4 with
              | .error e => .error e
              | .ok (items, cs5) =>
                match wktMatchChar ')' cs5 with
                | none => .error "Expected character: )"
                | some cs6 => .ok (Geom.mk .multiPolygon z m [] items, cs6)
          | .collection =>
            match wktMatchChar '(' cs3 with
            | none => .error "Expected character: ("
            | some cs4 =>
              match wktGo fuel (.geom (some rf)) cs4 with
              | .error e => .error e
              | .ok (child, cs5) => wktGo fuel (.children rf z m [child]) cs5
          | .invalid => .error "Unsupported geometry type"

/-- `wkt_reader::try_parse`: optional `SRID=...;` prefix, then the main
loop.  Trailing characters are ignored, as in the source. -/
def wktTryParse (input : List Char) : Except String (Geom ℚ) :=
  let cs := wktSkipWs input
  let body : List Char → Except String (Geom ℚ) := fun c =>
    match wktGo (c.length + 1) (.geom none) c with
    | .error e => .error e
    | .ok (g, _) => .ok g
  match wktMatchStr "SRID" cs with
  | some cs1 =>
    match wktMatchChar ';' (cs1.dropWhile fun c => c ≠ ';') with
    | none => .error "Expected character: ;"
    | some cs2 => body cs2
  | none => body cs

mutual

/-- Whether every node of a tree carries exactly the Z/M flags `(z, m)`. -/
def allFlags (z m : Bool) : Geom ℚ → Bool
  | .mk _ gz gm _ ps => (gz = z) && (gm = m) && allFlagsList z m ps

/-- `allFlags` over a child list. -/
def allFlagsList (z m : Bool) : List (Geom ℚ) → Bool
  | [] => true
  | g :: gs => allFlags z m g && allFlagsList z m gs

end


theorem allFlags_leaf (t : GType) (z m : Bool) (vs : List (V4 ℚ)) :
    allFlags z m (Geom.mk t z m vs []) = true := by
  simp [allFlags, allFlagsList]

theorem allFlagsList_append (z m : Bool) (l1 l2 : List (Geom ℚ)) :
    allFlagsList z m (l1 ++ l2) = (allFlagsList z m l1 && allFlagsList z m l2) := by
  induction l1 with
  | nil => simp [allFlagsList]
  | cons g gs ih => simp [allFlagsList, ih, Bool.and_assoc]

theorem wktReadRings_flags (z m : Bool) (stride : ℕ) :
    ∀ (fuel : ℕ) (cs : List Char) (rings : List (Geom ℚ)) (rest : List Char),
      wktReadRings z m stride fuel cs = .ok (rings, rest) →
      allFlagsList z m rings = true := by
  intro fuel
  induction fuel with
  | zero =>
    intro cs rings rest h
    simp [wktReadRings] at h
  | succ n ih =>
    intro cs rings rest h
    simp only [wktReadRings] at h
    split at h
    · split at h
      · rw [Except.ok.injEq, Prod.mk.injEq] at h
        rw [← h.1]
        simp [allFlagsList, allFlags]
      · split at h
        · exact absurd h (by simp)
        · rw [Except.ok.injEq, Prod.mk.injEq] at h
          rw [← h.1]
          rename_i heqr
          simp only [allFlagsList, allFlags, allFlagsList]
          simp [ih _ _ _ heqr]
    · split at h
      · exact absurd h (by simp)
      · split at h
        · exact absurd h (by simp)
        · split at h
          · exact absurd h (by simp)
          · split at h
            · rw [Except.ok.injEq, Prod.mk.injEq] at h
              rw [← h.1]
              simp [allFlagsList, allFlags]
            · split at h
              · exact absurd h (by simp)
              · rw [Except.ok.injEq, Prod.mk.injEq] at h
                rw [← h.1]
                rename_i heqr
                simp only [allFlagsList, allFlags, allFlagsList]
                simp [ih _ _ _ heqr]


theorem wktReadMultiPointItems_flags (z m : Bool) (stride : ℕ) :
    ∀ (fuel : ℕ) (cs : List Char) (items : List (Geom ℚ)) (rest : List Char),
      wktReadMultiPointItems z m stride fuel cs = .ok (items, rest) →
      allFlagsList z m items = true := by
  intro fuel
  induction fuel with
  | zero =>
    intro cs items rest h
    simp [wktReadMultiPointItems] at h
  | succ n ih =>
    intro cs items rest h
    simp only [wktReadMultiPointItems] at h
    repeat' split at h
    all_goals first
      | exact Except.noConfusion h
      | (rw [Except.ok.injEq, Prod.mk.injEq] at h
         rw [← h.1]
         first
           | (simp [allFlagsList, allFlags]
              done)
           | (rename_i heqr
              simp only [allFlagsList, allFlags]
              simp [ih _ _ _ heqr]))

theorem wktReadMultiLineItems_flags (z m : Bool) (stride : ℕ) :
    ∀ (fuel : ℕ) (cs : List Char) (items : List (Geom ℚ)) (rest : List Char),
      wktReadMultiLineItems z m stride fuel cs = .ok (items, rest) →
      allFlagsList z m items = true := by
  intro fuel
  induction fuel with
  | zero =>
    intro cs items rest h
    simp [wktReadMultiLineItems] at h
  | succ n ih =>
    intro cs items rest h
    simp only [wktReadMultiLineItems] at h
    repeat' split at h
    all_goals first
      | exact Except.noConfusion h
      | (rw [Except.ok.injEq, Prod.mk.injEq] at h
         rw [← h.1]
         first
           | (simp [allFlagsList, allFlags]
              done)
           | (rename_i heqr
              simp only [allFlagsList, allFlags]
              simp [ih _ _ _ heqr]))

theorem wktReadMultiPolyItems_flags (z m : Bool) (stride : ℕ) :
    ∀ (fuel : ℕ) (cs : List Char) (items : List (Geom ℚ)) (rest : List Char),
      wktReadMultiPolyItems z m stride fuel cs = .ok (items, rest) →
      allFlagsList z m items = true := by
  intro fuel
  induction fuel with
  | zero =>
    intro cs items rest h
    simp [wktReadMultiPolyItems] at h
  | succ n ih =>
    intro cs items rest h
    simp only [wktReadMultiPolyItems] at h
    split at h
    · exact Except.noConfusion h
    · rename_i rings cs2 hinner
      have hrings : allFlagsList z m rings = true := by
        split at hinner
        · rw [Except.ok.injEq, Prod.mk.injEq] at hinner
          rw [← hinner.1]
          simp [allFlagsList]
        · split at hinner
          · exact Except.noConfusion hinner
          · split at hinner
            · exact Except.noConfusion hinner
            · rename_i heqrings
              split at hinner
              · exact Except.noConfusion hinner
              · rw [Except.ok.injEq, Prod.mk.injEq] at hinner
                rw [← hinner.1]
                exact wktReadRings_flags z m stride _ _ _ _ heqrings
      split at h
      · rw [Except.ok.injEq, Prod.mk.injEq] at h
        rw [← h.1]
        simp [allFlagsList, allFlags, hrings]
      · split at h
        · exact Except.noConfusion h
        · rename_i heqr
          rw [Except.ok.injEq, Prod.mk.injEq] at h
          rw [← h.1]
          simp [allFlagsList, allFlags, hrings, ih _ _ _ heqr]


theorem wktGo_flags :
    ∀ (fuel : ℕ) (task : WktTask) (cs : List Char) (g : Geom ℚ) (rest : List Char),
      wktGo fuel task cs = .ok (g, rest) →
      (∀ rf0, task = WktTask.geom rf0 →
        allFlags g.hasZ g.hasM g = true ∧
        ∀ p, rf0 = some p → g.hasZ = p.1 ∧ g.hasM = p.2) ∧
      (∀ rf z m acc, task = WktTask.children rf z m acc →
        z = rf.1 → m = rf.2 → allFlagsList rf.1 rf.2 acc = true →
        allFlags rf.1 rf.2 g = true ∧ g.hasZ = rf.1 ∧ g.hasM = rf.2) := by
  intro fuel
  induction fuel with
  | zero =>
    intro task cs g rest h
    exact Except.noConfusion h
  | succ n ih =>
    intro task cs g rest h
    cases task with
    | children rf z m acc =>
      refine ⟨fun rf0 ht => WktTask.noConfusion ht, ?_⟩
      intro rf1 z1 m1 acc1 ht hz hm hacc
      injection ht with e1 e2 e3 e4
      subst e1; subst e2; subst e3; subst e4
      simp only [wktGo] at h
      split at h
      · split at h
        · exact Except.noConfusion h
        · rename_i child cs2 heq1
          have hchild := ((ih _ _ _ _ heq1).1 _ rfl)
          have hcz := (hchild.2 _ rfl).1
          have hcm := (hchild.2 _ rfl).2
          have hchildflags : allFlags rf.1 rf.2 child = true := by
            rw [← hcz, ← hcm]; exact hchild.1
          exact (ih _ _ _ _ h).2 _ _ _ _ rfl hz hm
            (by simp [allFlagsList_append, hacc, allFlagsList, hchildflags])
      · split at h
        · exact Except.noConfusion h
        · rw [Except.ok.injEq, Prod.mk.injEq] at h
          obtain ⟨hg, -⟩ := h
          subst hg
          subst hz; subst hm
          simp [allFlags, Geom.hasZ, Geom.hasM, hacc]
    | geom rf0 =>
      refine ⟨?_, fun rf1 z1 m1 acc1 ht => WktTask.noConfusion ht⟩
      intro rf2 ht
      injection ht with e1
      subst e1
      simp only [wktGo] at h
      split at h
      · exact Except.noConfusion h
      · rename_i t cs1 heqty
        rcases hzm : wktZM cs1 with ⟨z, m, cs3⟩
        rw [hzm] at h
        split at h
        · exact Except.noConfusion h
        · rename_i hcond
          rw [not_or, not_not, not_not] at hcond
          have hflags : ∀ p, rf0 = some p → z = p.1 ∧ m = p.2 := by
            intro p hp
            subst hp
            simp only [Option.getD] at hcond
            exact ⟨hcond.2, hcond.1⟩
          split at h
          · rw [Except.ok.injEq, Prod.mk.injEq] at h
            obtain ⟨hg, -⟩ := h
            subst hg
            refine ⟨by simp [allFlags, allFlagsList, Geom.hasZ, Geom.hasM], ?_⟩
            intro p hp
            have := hflags p hp
            simp [Geom.hasZ, Geom.hasM, this.1, this.2]
          · split at h
            · -- point
              split at h
              · exact Except.noConfusion h
              · split at h
                · exact Except.noConfusion h
                · split at h
                  · exact Except.noConfusion h
                  · rw [Except.ok.injEq, Prod.mk.injEq] at h
                    obtain ⟨hg, -⟩ := h
                    subst hg
                    refine ⟨by simp [allFlags, allFlagsList, Geom.hasZ, Geom.hasM], ?_⟩
                    intro p hp
                    have := hflags p hp
                    simp [Geom.hasZ, Geom.hasM, this.1, this.2]
            · -- linestring
              split at h
              · exact Except.noConfusion h
              · split at h
                · exact Except.noConfusion h
                · split at h
                  · exact Except.noConfusion h
                  · rw [Except.ok.injEq, Prod.mk.injEq] at h
                    obtain ⟨hg, -⟩ := h
                    subst hg
                    refine ⟨by simp [allFlags, allFlagsList, Geom.hasZ, Geom.hasM], ?_⟩
                    intro p hp
                    have := hflags p hp
                    simp [Geom.hasZ, Geom.hasM, this.1, this.2]
            · -- polygon
              split at h
              · exact Except.noConfusion h
              · split at h
                · exact Except.noConfusion h
                · rename_i heqrings
                  split at h
                  · exact Except.noConfusion h
                  · rw [Except.ok.injEq, Prod.mk.injEq] at h
                    obtain ⟨hg, -⟩ := h
                    subst hg
                    refine ⟨by simp [allFlags, Geom.hasZ, Geom.hasM,
                      wktReadRings_flags _ _ _ _ _ _ _ heqrings], ?_⟩
                    intro p hp
                    have := hflags p hp
                    simp [Geom.hasZ, Geom.hasM, this.1, this.2]
            · -- multipoint
              split at h
              · exact Except.noConfusion h
              · split at h
                · exact Except.noConfusion h
                · rename_i heqitems
                  split at h
                  · exact Except.noConfusion h
                  · rw [Except.ok.injEq, Prod.mk.injEq] at h
                    obtain ⟨hg, -⟩ := h
                    subst hg
                    refine ⟨by simp [allFlags, Geom.hasZ, Geom.hasM,
                      wktReadMultiPointItems_flags _ _ _ _ _ _ _ heqitems], ?_⟩
                    intro p hp
                    have := hflags p hp
                    simp [Geom.hasZ, Geom.hasM, this.1, this.2]
            · -- multilinestring
              split at h
              · exact Except.noConfusion h
              · split at h
                · exact Except.noConfusion h
                · rename_i heqitems
                  split at h
                  · exact Except.noConfusion h
                  · rw [Except.ok.injEq, Prod.mk.injEq] at h
                    obtain ⟨hg, -⟩ := h
                    subst hg
                    refine ⟨by simp [allFlags, Geom.hasZ, Geom.hasM,
                      wktReadMultiLineItems_flags _ _ _ _ _ _ _ heqitems], ?_⟩
                    intro p hp
                    have := hflags p hp
                    simp [Geom.hasZ, Geom.hasM, this.1, this.2]
            · -- multipolygon
              split at h
              · exact Except.noConfusion h
              · split at h
                · exact Except.noConfusion h
                · rename_i heqitems
                  split at h
                  · exact Except.noConfusion h
                  · rw [Except.ok.injEq, Prod.mk.injEq] at h
                    obtain ⟨hg, -⟩ := h
                    subst hg
                    refine ⟨by simp [allFlags, Geom.hasZ, Geom.hasM,
                      wktReadMultiPolyItems_flags _ _ _ _ _ _ _ heqitems], ?_⟩
                    intro p hp
                    have := hflags p hp
                    simp [Geom.hasZ, Geom.hasM, this.1, this.2]
            · -- collection
              split at h
              · exact Except.noConfusion h
              · split at h
                · exact Except.noConfusion h
                · rename_i child cs5 heq1
                  have hchild := ((ih _ _ _ _ heq1).1 _ rfl)
                  have hcz := (hchild.2 _ rfl).1
                  have hcm := (hchild.2 _ rfl).2
                  have hchildflags :
                      allFlags (rf0.getD (z, m)).1 (rf0.getD (z, m)).2 child = true := by
                    rw [← hcz, ← hcm]; exact hchild.1
                  have hres := (ih _ _ _ _ h).2 _ _ _ _ rfl hcond.2 hcond.1
                    (by simp [allFlagsList, hchildflags])
                  refine ⟨by rw [hres.2.1, hres.2.2]; exact hres.1, ?_⟩
                  intro p hp
                  subst hp
                  simp only [Option.getD] at hres
                  exact ⟨hres.2.1, hres.2.2⟩
            · -- invalid
              exact Except.noConfusion h


/-- C8: `wkt_reader::try_parse` rejects mixed Z/M dimensions within a single
WKT input: whenever parsing succeeds, every node of the resulting geometry
tree carries Z/M flags identical to the root geometry's flags; and an input
whose nested geometry declares flags differing from the root's (here
`GEOMETRYCOLLECTION Z(POINT EMPTY)`, whose child declares no Z) fails with
the "Mixed Z and M values are not supported" error. -/
theorem C8_wkt_mixed_zm :
    (∀ (input : List Char) (g : Geom ℚ), wktTryParse input = .ok g →
      allFlags g.hasZ g.hasM g = true) ∧
    wktTryParse (String.toList "GEOMETRYCOLLECTION Z(POINT EMPTY)") =
      .error "Mixed Z and M values are not supported" := by
  constructor
  · intro input g h
    simp only [wktTryParse] at h
    split at h
    · split at h
      · exact Except.noConfusion h
      · split at h
        · exact Except.noConfusion h
        · rename_i g1 r1 heq
          rw [Except.ok.injEq] at h
          subst h
          exact ((wktGo_flags _ _ _ _ _ heq).1 _ rfl).1
    · split at h
      · exact Except.noConfusion h
      · rename_i g1 r1 heq
        rw [Except.ok.injEq] at h
        subst h
        exact ((wktGo_flags _ _ _ _ _ heq).1 _ rfl).1
  · rfl

/-- Witness for C8: `GEOMETRYCOLLECTION(POINT EMPTY, LINESTRING EMPTY)`
parses successfully and the parsed tree is uniformly flagged. -/
theorem C8_witness :
    allFlags false false
      (Geom.mk GType.collection false false []
        [Geom.mk GType.point false false [] [],
         Geom.mk GType.linestring false false [] []] : Geom ℚ) = true :=
  C8_wkt_mixed_zm.1
    (String.toList "GEOMETRYCOLLECTION(POINT EMPTY, LINESTRING EMPTY)")
    (Geom.mk GType.collection false false []
      [Geom.mk GType.point false false [] [],
       Geom.mk GType.linestring false false [] []]) (by rfl)


/-!
## `linestring::substring` and `ops::get_length` (claim C7)

Vertex coordinates are modelled in `ℝ` because segment lengths take square
roots.  As everywhere in this development, IEEE doubles are read as exact
reals; Lean's convention `x / 0 = 0` resolves the `remaining / segment_length`
division when a zero-length segment coincides with a cut point (the limit
value of the interpolation).
-/

section Substring

open Classical

/-- One segment's length: `std::sqrt(dx * dx + dy * dy)` in
`vertex_array_length` (sgl.cpp lines 207-234). -/
noncomputable def segLen (p q : V4 ℝ) : ℝ :=
  Real.sqrt ((q.x - p.x) * (q.x - p.x) + (q.y - p.y) * (q.y - p.y))

/-- The accumulation loop of `vertex_array_length`: sum of segment lengths
from `prev` through the remaining vertices. -/
noncomputable def lengthAux : V4 ℝ → List (V4 ℝ) → ℝ
  | _, [] => 0
  | prev, nxt :: rest => segLen prev nxt + lengthAux nxt rest

/-- `vertex_array_length` (sgl.cpp lines 207-234): 0 for fewer than two
vertices, otherwise the sum of consecutive-vertex distances. -/
noncomputable def vertexArrayLength : List (V4 ℝ) → ℝ
  | [] => 0
  | v :: rest => lengthAux v rest

/-- `ops::get_length` (sgl.cpp lines 592-598) on a single-part geometry:
`visit_lines` visits LINESTRING leaves only, so a POINT contributes 0. -/
noncomputable def opsGetLength : GType × List (V4 ℝ) → ℝ
  | (GType.linestring, vs) => vertexArrayLength vs
  | _ => 0

/-- Linear interpolation of a vertex along the segment `prev → next`:
`out = prev + sfrac * (next - prev)` componentwise, as in `interpolate`
and `substring`. -/
def interpPt (p q : V4 ℝ) (s : ℝ) : V4 ℝ :=
  ⟨p.x + s * (q.x - p.x), p.y + s * (q.y - p.y),
   p.z + s * (q.z - p.z), p.m + s * (q.m - p.m)⟩

/-- The zero-initialised `vertex_xyzm beg = {}` / `end = {}` locals. -/
def zero4 : V4 ℝ := ⟨0, 0, 0, 0⟩

/-- The shared scan loop of `interpolate` and `substring`: starting from
accumulated length `len` at vertex `prev`, walk the remaining vertices; on
the first segment with `len + segment_length >= target` stop and
interpolate the cut point (`sfrac = (target - len) / segment_length`),
returning the vertices consumed before the break, the cut point, and the
loop state (`length`, `prev`, unconsumed vertices) at the break.  `none`
means the loop ran off the end without breaking. -/
noncomputable def scanCut (target : ℝ) :
    ℝ → V4 ℝ → List (V4 ℝ) →
    Option (List (V4 ℝ) × V4 ℝ × ℝ × V4 ℝ × List (V4 ℝ))
  | _, _, [] => none
  | len, prev, nxt :: rest =>
    let seg := segLen prev nxt
    if target ≤ len + seg then
      some ([], interpPt prev nxt ((target - len) / seg), len, prev, nxt :: rest)
    else
      match scanCut target (len + seg) nxt rest with
      | none => none
      | some (mid, cut, l2, p2, r2) => some (nxt :: mid, cut, l2, p2, r2)

/-- `linestring::interpolate` (sgl.cpp lines 789-852) on a LINESTRING's
vertex list: `none` models `return false`. -/
noncomputable def interpolateLine (vs : List (V4 ℝ)) (frac : ℝ) : Option (V4 ℝ) :=
  match vs with
  | [] => none
  | [v] => some v
  | v0 :: tl =>
    let f := min (max frac 0) 1
    if f = 0 then some v0
    else if f = 1 then some (tl.getLastD v0)
    else
      match scanCut (vertexArrayLength (v0 :: tl) * f) 0 v0 tl with
      | none => none
      | some (_, cut, _, _, _) => some cut

/-- `linestring::substring` (sgl.cpp lines 1430-1553) on a LINESTRING's
vertex list, returning the result's type and vertex list.  The two scan
loops share state: the end scan resumes from the beg scan's break state.
If the beg scan runs off the end, the zero-initialised `beg`/`end` locals
with `beg_idx = end_idx = 0` yield the two-vertex all-zero array; the end
scan running off after a successful beg scan is unreachable (the last
segment always triggers) and is modelled with the zero-initialised `end`. -/
noncomputable def substringLine (vs : List (V4 ℝ)) (begFrac endFrac : ℝ) :
    GType × List (V4 ℝ) :=
  match vs with
  | [] => (if begFrac = endFrac then GType.point else GType.linestring, [])
  | v0 :: tl =>
    if endFrac < begFrac then (GType.linestring, [])
    else
      let a := min (max begFrac 0) 1
      let b := min (max endFrac 0) 1
      if a = 0 ∧ b = 1 then (GType.linestring, v0 :: tl)
      else if a = b then
        (GType.point,
          match interpolateLine (v0 :: tl) a with
          | none => []
          | some pt => [pt])
      else
        let total := vertexArrayLength (v0 :: tl)
        match scanCut (total * a) 0 v0 tl with
        | none => (GType.linestring, [zero4, zero4])
        | some (_, beg, len1, prev1, rest1) =>
          match scanCut (total * b) len1 prev1 rest1 with
          | none => (GType.linestring, [beg, zero4])
          | some (mid, endv, l2, p2, r2) =>
            (GType.linestring, beg :: (mid ++ [endv]))

theorem segLen_nonneg (p q : V4 ℝ) : 0 ≤ segLen p q := Real.sqrt_nonneg _

theorem lengthAux_nonneg : ∀ (rest : List (V4 ℝ)) (prev : V4 ℝ),
    0 ≤ lengthAux prev rest := by
  intro rest
  induction rest with
  | nil => intro prev; simp [lengthAux]
  | cons nxt tl ih =>
    intro prev
    unfold lengthAux
    have := segLen_nonneg prev nxt
    have := ih nxt
    linarith

theorem interpPt_zero (p q : V4 ℝ) : interpPt p q 0 = p := by
  simp [interpPt]

theorem interpPt_one (p q : V4 ℝ) : interpPt p q 1 = q := by
  cases p; cases q
  simp only [interpPt, V4.mk.injEq]
  refine ⟨by ring, by ring, by ring, by ring⟩

/-- Distance between two points interpolated on the same segment. -/
theorem segLen_interp (p q : V4 ℝ) (s t : ℝ) :
    segLen (interpPt p q s) (interpPt p q t) = |t - s| * segLen p q := by
  unfold segLen interpPt
  have hx : (q.x - p.x) * (t - s) * ((q.x - p.x) * (t - s)) +
      (q.y - p.y) * (t - s) * ((q.y - p.y) * (t - s)) =
      (t - s) ^ 2 * ((q.x - p.x) * (q.x - p.x) + (q.y - p.y) * (q.y - p.y)) := by
    ring
  have harg : p.x + t * (q.x - p.x) - (p.x + s * (q.x - p.x)) =
      (q.x - p.x) * (t - s) := by ring
  have harg2 : p.y + t * (q.y - p.y) - (p.y + s * (q.y - p.y)) =
      (q.y - p.y) * (t - s) := by ring
  simp only [harg, harg2]
  rw [hx, Real.sqrt_mul (sq_nonneg _), Real.sqrt_sq_eq_abs]

theorem segLen_interp_right (p q : V4 ℝ) (s : ℝ) :
    segLen (interpPt p q s) q = |1 - s| * segLen p q := by
  have h := segLen_interp p q s 1
  rw [interpPt_one] at h
  exact h

/-- The scan loop breaks before running off the end whenever the target is
at most the total remaining length. -/
theorem scanCut_some (target : ℝ) :
    ∀ (rest : List (V4 ℝ)) (len : ℝ) (prev : V4 ℝ),
      rest ≠ [] → target ≤ len + lengthAux prev rest →
      ∃ out, scanCut target len prev rest = some out := by
  intro rest
  induction rest with
  | nil => intro len prev h _; exact absurd rfl h
  | cons nxt tl ih =>
    intro len prev _ hle
    by_cases hbr : target ≤ len + segLen prev nxt
    · exact ⟨_, by simp only [scanCut]; rw [if_pos hbr]⟩
    · have htl : tl ≠ [] := by
        rintro rfl
        simp only [lengthAux, add_zero] at hle
        exact hbr hle
      have hle2 : target ≤ len + segLen prev nxt + lengthAux nxt tl := by
        unfold lengthAux at hle; linarith
      obtain ⟨⟨mid, cut, l2, p2, r2⟩, hout⟩ := ih (len + segLen prev nxt) nxt htl hle2
      refine ⟨(nxt :: mid, cut, l2, p2, r2), ?_⟩
      simp only [scanCut]
      rw [if_neg hbr, hout]

/-- Invariants of a successful scan: the break length lies between the
initial length and the target, total length is conserved, and the cut point
interpolates the segment at the break. -/
theorem scanCut_inv (target : ℝ) :
    ∀ (rest : List (V4 ℝ)) (len : ℝ) (prev : V4 ℝ)
      (mid : List (V4 ℝ)) (cut : V4 ℝ) (l2 : ℝ) (p2 : V4 ℝ) (r2 : List (V4 ℝ)),
      scanCut target len prev rest = some (mid, cut, l2, p2, r2) →
      len ≤ target →
      (len ≤ l2 ∧ l2 ≤ target) ∧
      l2 + lengthAux p2 r2 = len + lengthAux prev rest ∧
      ∃ nxt tl, r2 = nxt :: tl ∧ target ≤ l2 + segLen p2 nxt ∧
        cut = interpPt p2 nxt ((target - l2) / segLen p2 nxt) := by
  intro rest
  induction rest with
  | nil =>
    intro len prev mid cut l2 p2 r2 h _
    exact Option.noConfusion h
  | cons nxt tl ih =>
    intro len prev mid cut l2 p2 r2 h hlen
    simp only [scanCut] at h
    split at h
    · rename_i hbr
      rw [Option.some.injEq] at h
      simp only [Prod.mk.injEq] at h
      obtain ⟨h1, h2, h3, h4, h5⟩ := h
      subst h1; subst h2; subst h3; subst h4; subst h5
      exact ⟨⟨le_refl _, hlen⟩, rfl, nxt, tl, rfl, hbr, rfl⟩
    · rename_i hbr
      split at h
      · exact Option.noConfusion h
      · rename_i mid2 cut2 l22 p22 r22 heq
        rw [Option.some.injEq] at h
        simp only [Prod.mk.injEq] at h
        obtain ⟨h1, h2, h3, h4, h5⟩ := h
        subst h1; subst h2; subst h3; subst h4; subst h5
        have hlt : len + segLen prev nxt < target := not_le.mp hbr
        obtain ⟨⟨ha, hb⟩, hcons, nxt2, tl2, hr, hbr2, hcut⟩ :=
          ih (len + segLen prev nxt) nxt _ _ _ _ _ heq (le_of_lt hlt)
        refine ⟨⟨?_, hb⟩, ?_, nxt2, tl2, hr, hbr2, hcut⟩
        · have := segLen_nonneg prev nxt
          linarith
        · simp only [lengthAux]
          linarith

/-- The key telescoping identity: if the scan from a state whose head
segment carries a cut point `P` at cumulated length `begL` breaks with cut
`endv` at target `endL`, then the polyline `P, consumed vertices, endv`
measures exactly `endL - begL`. -/
theorem scanCut_length (endL : ℝ) :
    ∀ (rest : List (V4 ℝ)) (len begL : ℝ) (prev P : V4 ℝ)
      (mid : List (V4 ℝ)) (endv : V4 ℝ) (l2 : ℝ) (p2 : V4 ℝ) (r2 : List (V4 ℝ)),
      scanCut endL len prev rest = some (mid, endv, l2, p2, r2) →
      len ≤ begL → begL ≤ endL →
      (∀ nxt tl, rest = nxt :: tl →
        begL ≤ len + segLen prev nxt ∧
        P = interpPt prev nxt ((begL - len) / segLen prev nxt)) →
      lengthAux P (mid ++ [endv]) = endL - begL := by
  intro rest
  induction rest with
  | nil =>
    intro len begL prev P mid endv l2 p2 r2 h _ _ _
    exact Option.noConfusion h
  | cons nxt tl ih =>
    intro len begL prev P mid endv l2 p2 r2 h hlb hbe hP
    obtain ⟨hble, hPeq⟩ := hP nxt tl rfl
    simp only [scanCut] at h
    split at h
    · rename_i hbr
      rw [Option.some.injEq] at h
      simp only [Prod.mk.injEq] at h
      obtain ⟨h1, h2, -, -, -⟩ := h
      subst h1; subst h2
      simp only [List.nil_append, lengthAux, add_zero]
      rw [hPeq, segLen_interp]
      by_cases hseg : segLen prev nxt = 0
      · rw [hseg, mul_zero]
        rw [hseg] at hbr
        linarith
      · have hseg2 : 0 < segLen prev nxt :=
          lt_of_le_of_ne (segLen_nonneg _ _) (Ne.symm hseg)
        have hdiv : (endL - len) / segLen prev nxt - (begL - len) / segLen prev nxt =
            (endL - begL) / segLen prev nxt := by ring
        rw [hdiv, abs_of_nonneg (div_nonneg (by linarith) (le_of_lt hseg2)),
          div_mul_cancel₀ _ hseg]
    · rename_i hbr
      split at h
      · exact Option.noConfusion h
      · rename_i mid2 cut2 l22 p22 r22 heq
        rw [Option.some.injEq] at h
        simp only [Prod.mk.injEq] at h
        obtain ⟨h1, h2, -, -, -⟩ := h
        subst h1; subst h2
        have hlt : len + segLen prev nxt < endL := not_le.mp hbr
        have ihres := ih (len + segLen prev nxt) (len + segLen prev nxt) nxt nxt
          mid2 cut2 l22 p22 r22 heq (le_refl _) (le_of_lt hlt) ?hhead
        case hhead =>
          intro nxt2 tl2 _
          refine ⟨le_add_of_nonneg_right (segLen_nonneg _ _), ?_⟩
          rw [sub_self, zero_div, interpPt_zero]
        have hPn : segLen P nxt = len + segLen prev nxt - begL := by
          rw [hPeq, segLen_interp_right]
          by_cases hseg : segLen prev nxt = 0
          · rw [hseg, mul_zero]
            rw [hseg] at hble
            linarith
          · have hseg2 : 0 < segLen prev nxt :=
              lt_of_le_of_ne (segLen_nonneg _ _) (Ne.symm hseg)
            have hfr : (begL - len) / segLen prev nxt ≤ 1 :=
              (div_le_one hseg2).mpr (by linarith)
            rw [abs_of_nonneg (by linarith), sub_mul, one_mul,
              div_mul_cancel₀ _ hseg]
            ring
        simp only [List.cons_append, lengthAux, List.append_eq]
        linarith

theorem opsGetLength_point (vs : List (V4 ℝ)) :
    opsGetLength (GType.point, vs) = 0 := rfl

/-- C7: for every LINESTRING vertex list and all fractions 0 ≤ a ≤ b ≤ 1,
the length of `linestring::substring(L, a, b)` is exactly `(b - a)` times
`ops::get_length(L)` (exact real arithmetic; the claim's floating-point
tolerance is not needed). -/
theorem C7_substring_length (vs : List (V4 ℝ)) (a b : ℝ)
    (h0 : 0 ≤ a) (hab : a ≤ b) (hb1 : b ≤ 1) :
    opsGetLength (substringLine vs a b) =
      (b - a) * opsGetLength (GType.linestring, vs) := by
  have ha1 : a ≤ 1 := le_trans hab hb1
  have hb0 : 0 ≤ b := le_trans h0 hab
  have hclampa : min (max a 0) 1 = a := by rw [max_eq_left h0, min_eq_left ha1]
  have hclampb : min (max b 0) 1 = b := by rw [max_eq_left hb0, min_eq_left hb1]
  cases vs with
  | nil =>
    simp only [substringLine]
    by_cases hab2 : a = b
    · rw [if_pos hab2]
      simp [opsGetLength, vertexArrayLength]
    · rw [if_neg hab2]
      simp [opsGetLength, vertexArrayLength]
  | cons v0 tl =>
    simp only [substringLine]
    rw [if_neg (not_lt.mpr hab), hclampa, hclampb]
    by_cases h01 : a = 0 ∧ b = 1
    · rw [if_pos h01]
      rw [h01.1, h01.2]
      norm_num
    · rw [if_neg h01]
      by_cases heq : a = b
      · rw [if_pos heq]
        rw [opsGetLength_point, heq]
        simp
      · rw [if_neg heq]
        cases tl with
        | nil =>
          simp only [scanCut, opsGetLength, vertexArrayLength, lengthAux]
          simp [segLen, zero4]
        | cons v1 tl2 =>
          have hTeq : vertexArrayLength (v0 :: v1 :: tl2) = lengthAux v0 (v1 :: tl2) := by
            simp [vertexArrayLength]
          have hT0 : 0 ≤ vertexArrayLength (v0 :: v1 :: tl2) := by
            rw [hTeq]; exact lengthAux_nonneg _ _
          have hs1 : vertexArrayLength (v0 :: v1 :: tl2) * a ≤
              0 + lengthAux v0 (v1 :: tl2) := by
            rw [zero_add, ← hTeq]
            exact mul_le_of_le_one_right hT0 ha1
          obtain ⟨⟨mid1, beg, len1, prev1, rest1⟩, hscan1⟩ :=
            scanCut_some (vertexArrayLength (v0 :: v1 :: tl2) * a) (v1 :: tl2) 0 v0
              (by simp) hs1
          obtain ⟨⟨hl10, hl1a⟩, hcons1, nxt1, tl1, hrest1, hble1, hbeg⟩ :=
            scanCut_inv (vertexArrayLength (v0 :: v1 :: tl2) * a) (v1 :: tl2) 0 v0
              _ _ _ _ _ hscan1 (mul_nonneg hT0 h0)
          have hs2 : vertexArrayLength (v0 :: v1 :: tl2) * b ≤
              len1 + lengthAux prev1 rest1 := by
            rw [hcons1, zero_add, ← hTeq]
            exact mul_le_of_le_one_right hT0 hb1
          have hrne : rest1 ≠ [] := by rw [hrest1]; simp
          obtain ⟨⟨mid2, endv, len2, prev2, rest2⟩, hscan2⟩ :=
            scanCut_some (vertexArrayLength (v0 :: v1 :: tl2) * b) rest1 len1 prev1
              hrne hs2
          simp only [hscan1, hscan2]
          simp only [opsGetLength]
          have hmain := scanCut_length (vertexArrayLength (v0 :: v1 :: tl2) * b)
            rest1 len1 (vertexArrayLength (v0 :: v1 :: tl2) * a) prev1 beg
            mid2 endv len2 prev2 rest2 hscan2 hl1a
            (mul_le_mul_of_nonneg_left hab hT0) ?hhead2
          case hhead2 =>
            intro nxtx tlx hx
            rw [hrest1] at hx
            injection hx with e1 e2
            subst e1
            exact ⟨hble1, hbeg⟩
          rw [vertexArrayLength, hmain, hTeq]
          ring

/-- Witness for C7: the unit segment from (0,0) to (1,0) cut at
a = 1/4, b = 1/2. -/
theorem C7_witness :
    (0 : ℝ) ≤ 1/4 ∧ (1/4 : ℝ) ≤ 1/2 ∧ (1/2 : ℝ) ≤ 1 ∧
    opsGetLength (substringLine [⟨0, 0, 0, 0⟩, ⟨1, 0, 0, 0⟩] (1/4) (1/2)) =
      ((1 : ℝ)/2 - 1/4) *
        opsGetLength (GType.linestring, [⟨0, 0, 0, 0⟩, ⟨1, 0, 0, 0⟩]) :=
  ⟨by norm_num, by norm_num, by norm_num,
   C7_substring_length [⟨0, 0, 0, 0⟩, ⟨1, 0, 0, 0⟩] (1/4) (1/2)
     (by norm_num) (by norm_num) (by norm_num)⟩

end Substring


/-!
## The Euclidean distance engine (claim C2)

`ops::get_euclidean_distance` and the `distance_*` case functions
(sgl.cpp lines 2015-2385).  Coordinates are `ℚ` (every branch decision of
the engine is rational), distances are `ℝ` (square roots).  The running
`distance_result` accumulator starts at `+∞`, modelled as `⊤ : WithTop ℝ`.
A plain `geometry` is never a `prepared_geometry`, so the
`is_prepared()` fast paths of `distance_point_lines` and
`distance_lines_lines` are not taken and do not appear here. -/

section Distance

/-- `vertex_distance` (sgl.cpp lines 131-135). -/
noncomputable def vertexDistance (l r : Vxy ℚ) : ℝ :=
  Real.sqrt (((l.x - r.x) * (l.x - r.x) + (l.y - r.y) * (l.y - r.y) : ℚ) : ℝ)

/-- `vertex_distance_squared` (sgl.cpp lines 127-129), `std::pow(_, 2)`. -/
def vertexDistanceSquared (l r : Vxy ℚ) : ℚ :=
  (l.x - r.x) ^ 2 + (l.y - r.y) ^ 2

/-- `vertex_segment_distance` (sgl.cpp lines 137-152): distance from `p` to
the closest point of segment `v w` (parameter clamped to [0, 1]). -/
noncomputable def vertexSegmentDistance (p v w : Vxy ℚ) : ℝ :=
  let l2 := vertexDistanceSquared v w
  if l2 = 0 then vertexDistance p v
  else
    let t := ((p.x - v.x) * (w.x - v.x) + (p.y - v.y) * (w.y - v.y)) / l2
    let tc := max 0 (min 1 t)
    vertexDistance p ⟨v.x + tc * (w.x - v.x), v.y + tc * (w.y - v.y)⟩

/-- `segment_segment_distance` (sgl.cpp lines 155-193). -/
noncomputable def segmentSegmentDistance (a b c d : Vxy ℚ) : ℝ :=
  if a.x = b.x ∧ a.y = b.y then vertexSegmentDistance a c d
  else if c.x = d.x ∧ c.y = d.y then vertexSegmentDistance c a b
  else
    let denom := (b.x - a.x) * (d.y - c.y) - (b.y - a.y) * (d.x - c.x)
    if denom = 0 then
      min (min (vertexSegmentDistance a c d) (vertexSegmentDistance b c d))
          (min (vertexSegmentDistance c a b) (vertexSegmentDistance d a b))
    else
      let r := (a.y - c.y) * (d.x - c.x) - (a.x - c.x) * (d.y - c.y)
      let s := (a.y - c.y) * (b.x - a.x) - (a.x - c.x) * (b.y - a.y)
      let rn := r / denom
      let sn := s / denom
      if rn < 0 ∨ rn > 1 ∨ sn < 0 ∨ sn > 1 then
        min (min (vertexSegmentDistance a c d) (vertexSegmentDistance b c d))
            (min (vertexSegmentDistance c a b) (vertexSegmentDistance d a b))
      else 0

/-- `distance_result::set`: clamp the accumulator down to `dist`. -/
noncomputable def distRes (res : WithTop ℝ) (d : ℝ) : WithTop ℝ :=
  min res (d : WithTop ℝ)

/-- The first vertex of a geometry's vertex array, as `memcpy`'d into a
`vertex_xy` by the distance functions. -/
def firstXY (g : Geom ℚ) : Vxy ℚ := (g.verts.headD ⟨0, 0, 0, 0⟩).xy

/-- The placeholder used for `get_first_part()` when a polygon has no rings
(unreachable behind the `is_empty` guards). -/
def noRing : Geom ℚ := Geom.mk GType.linestring false false [] []

/-- The segment loop of `distance_point_lines` (and the one-point cases of
`distance_lines_lines`): fold `vertex_segment_distance` over the segments. -/
noncomputable def minVertSegs (p : Vxy ℚ) : Vxy ℚ → List (Vxy ℚ) → WithTop ℝ → WithTop ℝ
  | _, [], res => res
  | prev, nxt :: tl, res =>
    minVertSegs p nxt tl (distRes res (vertexSegmentDistance p prev nxt))

/-- The inner loop of `distance_lines_lines`' segment-pair scan. -/
noncomputable def minSegSegsInner (lp ln : Vxy ℚ) :
    Vxy ℚ → List (Vxy ℚ) → WithTop ℝ → WithTop ℝ
  | _, [], res => res
  | rprev, rnxt :: rtl, res =>
    minSegSegsInner lp ln rnxt rtl (distRes res (segmentSegmentDistance lp ln rprev rnxt))

/-- The outer loop of `distance_lines_lines`' segment-pair scan. -/
noncomputable def minSegSegsOuter (rv : Vxy ℚ) (rtl : List (Vxy ℚ)) :
    Vxy ℚ → List (Vxy ℚ) → WithTop ℝ → WithTop ℝ
  | _, [], res => res
  | lprev, lnxt :: ltl, res =>
    minSegSegsOuter rv rtl lnxt ltl (minSegSegsInner lprev lnxt rv rtl res)

/-- `distance_point_point` (sgl.cpp lines 2034-2055). -/
noncomputable def distancePointPoint (lhs rhs : Geom ℚ) (res : WithTop ℝ) :
    Bool × WithTop ℝ :=
  if lhs.isEmpty || rhs.isEmpty then (false, res)
  else (true, distRes res (vertexDistance (firstXY lhs) (firstXY rhs)))

/-- `distance_point_lines` (sgl.cpp lines 2057-2106), unprepared path. -/
noncomputable def distancePointLines (lhs rhs : Geom ℚ) (res : WithTop ℝ) :
    Bool × WithTop ℝ :=
  if lhs.isEmpty || rhs.isEmpty then (false, res)
  else
    match rhs.xyList with
    | [] => (false, res)
    | rv :: rtl =>
      if rtl = [] then (true, distRes res (vertexDistance (firstXY lhs) rv))
      else (true, minVertSegs (firstXY lhs) rv rtl res)

/-- `distance_point_polyg` (sgl.cpp lines 2108-2141). -/
noncomputable def distancePointPolyg (lhs rhs : Geom ℚ) (res : WithTop ℝ) :
    Bool × WithTop ℝ :=
  if lhs.isEmpty || rhs.isEmpty then (false, res)
  else
    let lv := firstXY lhs
    let shell := rhs.parts.headD noRing
    match vertexInRingXY lv shell.xyList with
    | PipResult.EXTERIOR => distancePointLines lhs shell res
    | PipResult.INTERIOR =>
      match rhs.parts.tail.find?
          (fun ring => decide (vertexInRingXY lv ring.xyList ≠ PipResult.EXTERIOR)) with
      | some ring => distancePointLines lhs ring res
      | none => (true, distRes res 0)
    | _ => (true, distRes res 0)

/-- `distance_lines_lines` (sgl.cpp lines 2143-2230), unprepared path.  The
catch-all arm is unreachable: the `is_empty` guards ensure both vertex
lists are non-empty. -/
noncomputable def distanceLinesLines (lhs rhs : Geom ℚ) (res : WithTop ℝ) :
    Bool × WithTop ℝ :=
  if lhs.isEmpty || rhs.isEmpty then (false, res)
  else
    match lhs.xyList, rhs.xyList with
    | lv :: ltl, rv :: rtl =>
      if ltl = [] ∧ rtl = [] then (true, distRes res (vertexDistance lv rv))
      else if ltl = [] then (true, minVertSegs lv rv rtl res)
      else if rtl = [] then (true, minVertSegs rv lv ltl res)
      else (true, minSegSegsOuter rv rtl lv ltl res)
    | _, _ => (false, res)

/-- The first ring loop of `distance_lines_polyg`: accumulate the distance
to every hole, failing as soon as one `distance_lines_lines` fails. -/
noncomputable def distLinesHoles (lhs : Geom ℚ) :
    List (Geom ℚ) → WithTop ℝ → Bool × WithTop ℝ
  | [], res => (true, res)
  | ring :: rest, res =>
    match distanceLinesLines lhs ring res with
    | (false, r) => (false, r)
    | (true, r) => distLinesHoles lhs rest r

/-- `distance_lines_polyg` (sgl.cpp lines 2232-2271). -/
noncomputable def distanceLinesPolyg (lhs rhs : Geom ℚ) (res : WithTop ℝ) :
    Bool × WithTop ℝ :=
  if lhs.isEmpty || rhs.isEmpty then (false, res)
  else
    let lv := firstXY lhs
    let shell := rhs.parts.headD noRing
    if vertexInRingXY lv shell.xyList = PipResult.EXTERIOR then
      distanceLinesLines lhs shell res
    else
      match distLinesHoles lhs rhs.parts.tail res with
      | (false, r) => (false, r)
      | (true, r) =>
        if rhs.parts.tail.any
            (fun ring => decide (vertexInRingXY lv ring.xyList ≠ PipResult.EXTERIOR)) then
          (true, r)
        else (true, distRes r 0)

/-- `distance_polyg_polyg` (sgl.cpp lines 2272-2318). -/
noncomputable def distancePolygPolyg (lhs rhs : Geom ℚ) (res : WithTop ℝ) :
    Bool × WithTop ℝ :=
  if lhs.isEmpty || rhs.isEmpty then (false, res)
  else
    let lshell := lhs.parts.headD noRing
    let rshell := rhs.parts.headD noRing
    let lv := firstXY lshell
    let rv := firstXY rshell
    if vertexInRingXY lv rshell.xyList = PipResult.EXTERIOR ∧
        vertexInRingXY rv lshell.xyList = PipResult.EXTERIOR then
      distanceLinesLines lshell rshell res
    else
      match lhs.parts.tail.find?
          (fun ring => decide (vertexInRingXY rv ring.xyList ≠ PipResult.EXTERIOR)) with
      | some lring => distanceLinesLines lring rshell res
      | none =>
        match rhs.parts.tail.find?
            (fun ring => decide (vertexInRingXY lv ring.xyList ≠ PipResult.EXTERIOR)) with
        | some rring => distanceLinesLines lshell rring res
        | none => (true, distRes res 0)

/-- `distance_dispatch` (sgl.cpp lines 2320-2361). -/
noncomputable def distanceDispatch (lhs rhs : Geom ℚ) (res : WithTop ℝ) :
    Bool × WithTop ℝ :=
  match lhs.ty, rhs.ty with
  | GType.point, GType.point => distancePointPoint lhs rhs res
  | GType.point, GType.linestring => distancePointLines lhs rhs res
  | GType.point, GType.polygon => distancePointPolyg lhs rhs res
  | GType.linestring, GType.point => distancePointLines rhs lhs res
  | GType.linestring, GType.linestring => distanceLinesLines lhs rhs res
  | GType.linestring, GType.polygon => distanceLinesPolyg lhs rhs res
  | GType.polygon, GType.point => distancePointPolyg rhs lhs res
  | GType.polygon, GType.linestring => distanceLinesPolyg rhs lhs res
  | GType.polygon, GType.polygon => distancePolygPolyg lhs rhs res
  | _, _ => (false, res)

/-- The inner leaf loop of `ops::get_euclidean_distance`. -/
noncomputable def distLoopInner (la : Geom ℚ) :
    List (Geom ℚ) → Bool × WithTop ℝ → Bool × WithTop ℝ
  | [], acc => acc
  | lb :: tl, acc =>
    let out := distanceDispatch la lb acc.2
    distLoopInner la tl (acc.1 || out.1, out.2)

/-- The outer leaf loop of `ops::get_euclidean_distance`. -/
noncomputable def distLoopOuter (lbs : List (Geom ℚ)) :
    List (Geom ℚ) → Bool × WithTop ℝ → Bool × WithTop ℝ
  | [], acc => acc
  | la :: tl, acc => distLoopOuter lbs tl (distLoopInner la lbs acc)

/-- `ops::get_euclidean_distance` (sgl.cpp lines 2365-2383): the found flag
and the final accumulator (written to `result` unconditionally). -/
noncomputable def getEuclideanDistance (a b : Geom ℚ) : Bool × WithTop ℝ :=
  distLoopOuter (leavesOf b) (leavesOf a) (false, ⊤)

theorem vertexDistance_comm (l r : Vxy ℚ) :
    vertexDistance l r = vertexDistance r l := by
  unfold vertexDistance
  have h : (l.x - r.x) * (l.x - r.x) + (l.y - r.y) * (l.y - r.y) =
      (r.x - l.x) * (r.x - l.x) + (r.y - l.y) * (r.y - l.y) := by ring
  rw [h]

theorem segmentSegmentDistance_comm (a b c d : Vxy ℚ) :
    segmentSegmentDistance a b c d = segmentSegmentDistance c d a b := by
  simp only [segmentSegmentDistance]
  by_cases hab : a.x = b.x ∧ a.y = b.y
  · by_cases hcd : c.x = d.x ∧ c.y = d.y
    · rw [if_pos hab, if_pos hcd]
      simp only [vertexSegmentDistance]
      have h1 : vertexDistanceSquared c d = 0 := by
        unfold vertexDistanceSquared
        rw [hcd.1, hcd.2]; ring
      have h2 : vertexDistanceSquared a b = 0 := by
        unfold vertexDistanceSquared
        rw [hab.1, hab.2]; ring
      rw [if_pos h1, if_pos h2]
      exact vertexDistance_comm a c
    · rw [if_pos hab, if_neg hcd, if_pos hab]
  · by_cases hcd : c.x = d.x ∧ c.y = d.y
    · rw [if_neg hab, if_pos hcd, if_pos hcd]
    · rw [if_neg hab, if_neg hcd, if_neg hcd, if_neg hab]
      have hden : (d.x - c.x) * (b.y - a.y) - (d.y - c.y) * (b.x - a.x) =
          -((b.x - a.x) * (d.y - c.y) - (b.y - a.y) * (d.x - c.x)) := by ring
      have hr : (c.y - a.y) * (b.x - a.x) - (c.x - a.x) * (b.y - a.y) =
          -((a.y - c.y) * (b.x - a.x) - (a.x - c.x) * (b.y - a.y)) := by ring
      have hs : (c.y - a.y) * (d.x - c.x) - (c.x - a.x) * (d.y - c.y) =
          -((a.y - c.y) * (d.x - c.x) - (a.x - c.x) * (d.y - c.y)) := by ring
      rw [hden, hr, hs]
      simp only [neg_eq_zero, neg_div_neg_eq]
      by_cases hd0 : (b.x - a.x) * (d.y - c.y) - (b.y - a.y) * (d.x - c.x) = 0
      · rw [if_pos hd0, if_pos hd0]
        exact min_comm _ _
      · rw [if_neg hd0, if_neg hd0]
        by_cases hc1 :
            ((a.y - c.y) * (d.x - c.x) - (a.x - c.x) * (d.y - c.y)) /
                ((b.x - a.x) * (d.y - c.y) - (b.y - a.y) * (d.x - c.x)) < 0 ∨
            ((a.y - c.y) * (d.x - c.x) - (a.x - c.x) * (d.y - c.y)) /
                ((b.x - a.x) * (d.y - c.y) - (b.y - a.y) * (d.x - c.x)) > 1 ∨
            ((a.y - c.y) * (b.x - a.x) - (a.x - c.x) * (b.y - a.y)) /
                ((b.x - a.x) * (d.y - c.y) - (b.y - a.y) * (d.x - c.x)) < 0 ∨
            ((a.y - c.y) * (b.x - a.x) - (a.x - c.x) * (b.y - a.y)) /
                ((b.x - a.x) * (d.y - c.y) - (b.y - a.y) * (d.x - c.x)) > 1
        · rw [if_pos hc1, if_pos (by tauto)]
          exact min_comm _ _
        · rw [if_neg hc1, if_neg (by tauto)]

/-- Minimum of `f` over a list, starting from `+∞`. -/
noncomputable def minOver {X : Type} (xs : List X) (f : X → WithTop ℝ) : WithTop ℝ :=
  (xs.map f).foldr min ⊤

theorem minOver_nil {X : Type} (f : X → WithTop ℝ) : minOver [] f = ⊤ := rfl

theorem minOver_cons {X : Type} (x : X) (xs : List X) (f : X → WithTop ℝ) :
    minOver (x :: xs) f = min (f x) (minOver xs f) := rfl

theorem minOver_congr {X : Type} (xs : List X) (f g : X → WithTop ℝ)
    (h : ∀ x ∈ xs, f x = g x) : minOver xs f = minOver xs g := by
  induction xs with
  | nil => rfl
  | cons x xs ih =>
    rw [minOver_cons, minOver_cons, h x (by simp),
      ih (fun y hy => h y (List.mem_cons_of_mem x hy))]

theorem minOver_const_top {X : Type} (xs : List X) :
    minOver xs (fun _ => (⊤ : WithTop ℝ)) = ⊤ := by
  induction xs with
  | nil => rfl
  | cons x xs ih => rw [minOver_cons, ih, min_self]

theorem minOver_min {X : Type} (xs : List X) (f g : X → WithTop ℝ) :
    minOver xs (fun x => min (f x) (g x)) = min (minOver xs f) (minOver xs g) := by
  induction xs with
  | nil => rw [minOver_nil, minOver_nil, minOver_nil, min_self]
  | cons x xs ih =>
    rw [minOver_cons, minOver_cons, minOver_cons, ih]
    exact min_min_min_comm _ _ _ _

theorem minOver_swap {X Y : Type} (xs : List X) (ys : List Y)
    (F : X → Y → WithTop ℝ) :
    minOver xs (fun x => minOver ys (fun y => F x y)) =
      minOver ys (fun y => minOver xs (fun x => F x y)) := by
  induction xs with
  | nil =>
    rw [minOver_nil, minOver_congr ys _ (fun _ => ⊤) (fun y _ => minOver_nil _),
      minOver_const_top]
  | cons x xs ih =>
    rw [minOver_cons, ih, ← minOver_min]
    rfl

theorem list_any_congr {X : Type} (xs : List X) (p q : X → Bool)
    (h : ∀ x ∈ xs, p x = q x) : xs.any p = xs.any q := by
  induction xs with
  | nil => rfl
  | cons x xs ih =>
    simp only [List.any_cons]
    rw [h x (by simp), ih (fun y hy => h y (List.mem_cons_of_mem x hy))]

theorem list_any_or {X : Type} (xs : List X) (p q : X → Bool) :
    xs.any (fun x => p x || q x) = (xs.any p || xs.any q) := by
  induction xs with
  | nil => rfl
  | cons x xs ih =>
    simp only [List.any_cons, ih]
    cases p x <;> cases q x <;> simp

theorem any_any_swap {X Y : Type} (xs : List X) (ys : List Y) (F : X → Y → Bool) :
    xs.any (fun x => ys.any (fun y => F x y)) =
      ys.any (fun y => xs.any (fun x => F x y)) := by
  induction xs with
  | nil =>
    simp only [List.any_nil]
    rw [list_any_congr ys _ (fun _ => false) (fun y _ => rfl)]
    simp
  | cons x xs ih =>
    simp only [List.any_cons, ih]
    rw [← list_any_or]

theorem top_min_eq (x : WithTop ℝ) : min ⊤ x = x := min_eq_right le_top

theorem min_top_eq (x : WithTop ℝ) : min x ⊤ = x := min_eq_left le_top

theorem minVertSegs_shape :
    ∀ (tl : List (Vxy ℚ)) (prev p : Vxy ℚ) (res : WithTop ℝ),
      minVertSegs p prev tl res = min res (minVertSegs p prev tl ⊤) := by
  intro tl
  induction tl with
  | nil =>
    intro prev p res
    simp only [minVertSegs]
    rw [min_top_eq]
  | cons nxt tl2 ih =>
    intro prev p res
    simp only [minVertSegs, distRes]
    rw [ih nxt p, ih nxt p (min ⊤ _), top_min_eq, min_assoc]

theorem minSegSegsInner_closed :
    ∀ (rtl : List (Vxy ℚ)) (rprev lp ln : Vxy ℚ) (res : WithTop ℝ),
      minSegSegsInner lp ln rprev rtl res =
        min res (minOver (segs (rprev :: rtl))
          (fun pr => ((segmentSegmentDistance lp ln pr.1 pr.2 : ℝ) : WithTop ℝ))) := by
  intro rtl
  induction rtl with
  | nil =>
    intro rprev lp ln res
    simp only [minSegSegsInner, segs, minOver_nil]
    rw [min_top_eq]
  | cons rnxt rtl2 ih =>
    intro rprev lp ln res
    simp only [minSegSegsInner, distRes, segs, minOver_cons]
    rw [ih rnxt lp ln, min_assoc]

theorem minSegSegsOuter_closed :
    ∀ (ltl : List (Vxy ℚ)) (lprev rv : Vxy ℚ) (rtl : List (Vxy ℚ)) (res : WithTop ℝ),
      minSegSegsOuter rv rtl lprev ltl res =
        min res (minOver (segs (lprev :: ltl)) (fun lpr =>
          minOver (segs (rv :: rtl)) (fun rpr =>
            ((segmentSegmentDistance lpr.1 lpr.2 rpr.1 rpr.2 : ℝ) : WithTop ℝ)))) := by
  intro ltl
  induction ltl with
  | nil =>
    intro lprev rv rtl res
    simp only [minSegSegsOuter, segs, minOver_nil]
    rw [min_top_eq]
  | cons lnxt ltl2 ih =>
    intro lprev rv rtl res
    simp only [minSegSegsOuter, segs, minOver_cons]
    rw [ih lnxt rv rtl, minSegSegsInner_closed, min_assoc]

theorem minSegSegsOuter_swap (lv rv : Vxy ℚ) (ltl rtl : List (Vxy ℚ))
    (res : WithTop ℝ) :
    minSegSegsOuter rv rtl lv ltl res = minSegSegsOuter lv ltl rv rtl res := by
  rw [minSegSegsOuter_closed, minSegSegsOuter_closed, minOver_swap]
  congr 1
  refine minOver_congr _ _ _ (fun rpr _ => ?_)
  refine minOver_congr _ _ _ (fun lpr _ => ?_)
  rw [segmentSegmentDistance_comm]

theorem distancePointPoint_symm (lhs rhs : Geom ℚ) (res : WithTop ℝ) :
    distancePointPoint lhs rhs res = distancePointPoint rhs lhs res := by
  unfold distancePointPoint
  rw [Bool.or_comm rhs.isEmpty lhs.isEmpty]
  by_cases he : (lhs.isEmpty || rhs.isEmpty) = true
  · rw [if_pos he, if_pos he]
  · rw [if_neg he, if_neg he, vertexDistance_comm]

theorem distanceLinesLines_symm (lhs rhs : Geom ℚ) (res : WithTop ℝ) :
    distanceLinesLines lhs rhs res = distanceLinesLines rhs lhs res := by
  unfold distanceLinesLines
  rw [Bool.or_comm rhs.isEmpty lhs.isEmpty]
  by_cases he : (lhs.isEmpty || rhs.isEmpty) = true
  · rw [if_pos he, if_pos he]
  · rw [if_neg he, if_neg he]
    rcases hL : lhs.xyList with - | ⟨lv, ltl⟩ <;>
      rcases hR : rhs.xyList with - | ⟨rv, rtl⟩ <;> simp only [hL, hR]
    by_cases hlt : ltl = []
    · by_cases hrt : rtl = []
      · rw [if_pos ⟨hlt, hrt⟩, if_pos ⟨hrt, hlt⟩, vertexDistance_comm]
      · rw [if_neg (fun hh => hrt hh.2), if_pos hlt,
          if_neg (fun hh => hrt hh.1), if_neg hrt, if_pos hlt]
    · by_cases hrt : rtl = []
      · rw [if_neg (fun hh => hlt hh.1), if_neg hlt, if_pos hrt,
          if_neg (fun hh => hlt hh.2), if_pos hrt]
      · rw [if_neg (fun hh => hlt hh.1), if_neg hlt, if_neg hrt,
          if_neg (fun hh => hrt hh.1), if_neg hrt, if_neg hlt,
          minSegSegsOuter_swap]

/-- The hole-scan condition of `distance_polyg_polyg`: some hole of `p`
classifies the first vertex of `q`'s shell as not-EXTERIOR. -/
def holeHit (p q : Geom ℚ) : Bool :=
  p.parts.tail.any (fun ring =>
    decide (vertexInRingXY (firstXY (q.parts.headD noRing)) ring.xyList ≠
      PipResult.EXTERIOR))

theorem distancePolygPolyg_symm (lhs rhs : Geom ℚ)
    (h : ¬(holeHit lhs rhs = true ∧ holeHit rhs lhs = true)) (res : WithTop ℝ) :
    distancePolygPolyg lhs rhs res = distancePolygPolyg rhs lhs res := by
  simp only [distancePolygPolyg]
  rw [Bool.or_comm rhs.isEmpty lhs.isEmpty]
  by_cases he : (lhs.isEmpty || rhs.isEmpty) = true
  · rw [if_pos he, if_pos he]
  · rw [if_neg he, if_neg he]
    by_cases hboth : vertexInRingXY (firstXY (lhs.parts.headD noRing))
        ((rhs.parts.headD noRing).xyList) = PipResult.EXTERIOR ∧
        vertexInRingXY (firstXY (rhs.parts.headD noRing))
          ((lhs.parts.headD noRing).xyList) = PipResult.EXTERIOR
    · rw [if_pos hboth, if_pos ⟨hboth.2, hboth.1⟩, distanceLinesLines_symm]
    · rw [if_neg hboth, if_neg (fun hh => hboth ⟨hh.2, hh.1⟩)]
      cases hfA : lhs.parts.tail.find? (fun ring =>
          decide (vertexInRingXY (firstXY (rhs.parts.headD noRing)) ring.xyList ≠
            PipResult.EXTERIOR)) with
      | some lring =>
        have hhitA : holeHit lhs rhs = true := by
          unfold holeHit
          rw [List.any_eq_true]
          have h1 := List.find?_some hfA
          have h2 := List.mem_of_find?_eq_some hfA
          exact ⟨lring, h2, h1⟩
        have hhitB : holeHit rhs lhs = false := by
          cases hb : holeHit rhs lhs with
          | false => rfl
          | true => exact absurd ⟨hhitA, hb⟩ h
        have hfB : rhs.parts.tail.find? (fun ring =>
            decide (vertexInRingXY (firstXY (lhs.parts.headD noRing)) ring.xyList ≠
              PipResult.EXTERIOR)) = none := by
          rw [List.find?_eq_none]
          intro x hx
          unfold holeHit at hhitB
          rw [List.any_eq_false] at hhitB
          exact fun hp => hhitB x hx hp
        rw [hfB]
        exact distanceLinesLines_symm lring (rhs.parts.headD noRing) res
      | none =>
        cases hfB : rhs.parts.tail.find? (fun ring =>
            decide (vertexInRingXY (firstXY (lhs.parts.headD noRing)) ring.xyList ≠
              PipResult.EXTERIOR)) with
        | some rring =>
          exact distanceLinesLines_symm (lhs.parts.headD noRing) rring res
        | none => rfl

theorem distanceDispatch_symm (la lb : Geom ℚ)
    (h : la.ty = GType.polygon → lb.ty = GType.polygon →
      ¬(holeHit la lb = true ∧ holeHit lb la = true)) (res : WithTop ℝ) :
    distanceDispatch la lb res = distanceDispatch lb la res := by
  unfold distanceDispatch
  cases hA : la.ty <;> cases hB : lb.ty <;>
    first
    | rfl
    | exact distancePointPoint_symm la lb res
    | exact distanceLinesLines_symm la lb res
    | exact distancePolygPolyg_symm la lb (h hA hB) res

theorem minSegSegsOuter_shape (rv : Vxy ℚ) (rtl : List (Vxy ℚ)) (lv : Vxy ℚ)
    (ltl : List (Vxy ℚ)) (res : WithTop ℝ) :
    minSegSegsOuter rv rtl lv ltl res = min res (minSegSegsOuter rv rtl lv ltl ⊤) := by
  rw [minSegSegsOuter_closed, minSegSegsOuter_closed, top_min_eq]

theorem distancePointPoint_shape (lhs rhs : Geom ℚ) :
    ∃ F C, ∀ res, distancePointPoint lhs rhs res = (F, min res C) := by
  by_cases he : (lhs.isEmpty || rhs.isEmpty) = true
  · refine ⟨false, ⊤, fun res => ?_⟩
    unfold distancePointPoint
    rw [if_pos he, min_top_eq]
  · refine ⟨true, ((vertexDistance (firstXY lhs) (firstXY rhs) : ℝ) : WithTop ℝ),
      fun res => ?_⟩
    unfold distancePointPoint
    rw [if_neg he]
    rfl

theorem distancePointLines_shape (lhs rhs : Geom ℚ) :
    ∃ F C, ∀ res, distancePointLines lhs rhs res = (F, min res C) := by
  by_cases he : (lhs.isEmpty || rhs.isEmpty) = true
  · refine ⟨false, ⊤, fun res => ?_⟩
    unfold distancePointLines
    rw [if_pos he, min_top_eq]
  · cases hx : rhs.xyList with
    | nil =>
      refine ⟨false, ⊤, fun res => ?_⟩
      unfold distancePointLines
      rw [if_neg he]
      simp only [hx]
      rw [min_top_eq]
    | cons rv rtl =>
      by_cases h1 : rtl = []
      · refine ⟨true, ((vertexDistance (firstXY lhs) rv : ℝ) : WithTop ℝ),
          fun res => ?_⟩
        unfold distancePointLines
        rw [if_neg he]
        simp only [hx]
        rw [if_pos h1]
        rfl
      · refine ⟨true, minVertSegs (firstXY lhs) rv rtl ⊤, fun res => ?_⟩
        unfold distancePointLines
        rw [if_neg he]
        simp only [hx]
        rw [if_neg h1, minVertSegs_shape]

theorem distancePointPolyg_shape (lhs rhs : Geom ℚ) :
    ∃ F C, ∀ res, distancePointPolyg lhs rhs res = (F, min res C) := by
  by_cases he : (lhs.isEmpty || rhs.isEmpty) = true
  · refine ⟨false, ⊤, fun res => ?_⟩
    unfold distancePointPolyg
    rw [if_pos he, min_top_eq]
  · cases hv : vertexInRingXY (firstXY lhs) ((rhs.parts.headD noRing).xyList) with
    | EXTERIOR =>
      obtain ⟨F, C, hFC⟩ := distancePointLines_shape lhs (rhs.parts.headD noRing)
      refine ⟨F, C, fun res => ?_⟩
      simp only [distancePointPolyg]
      rw [if_neg he]
      simp only [hv]
      exact hFC res
    | INTERIOR =>
      cases hf : rhs.parts.tail.find? (fun ring =>
          decide (vertexInRingXY (firstXY lhs) ring.xyList ≠ PipResult.EXTERIOR)) with
      | some ring =>
        obtain ⟨F, C, hFC⟩ := distancePointLines_shape lhs ring
        refine ⟨F, C, fun res => ?_⟩
        simp only [distancePointPolyg]
        rw [if_neg he]
        simp only [hv, hf]
        exact hFC res
      | none =>
        refine ⟨true, ((0 : ℝ) : WithTop ℝ), fun res => ?_⟩
        simp only [distancePointPolyg]
        rw [if_neg he]
        simp only [hv, hf]
        rfl
    | INVALID =>
      refine ⟨true, ((0 : ℝ) : WithTop ℝ), fun res => ?_⟩
      simp only [distancePointPolyg]
      rw [if_neg he]
      simp only [hv]
      rfl
    | BOUNDARY =>
      refine ⟨true, ((0 : ℝ) : WithTop ℝ), fun res => ?_⟩
      simp only [distancePointPolyg]
      rw [if_neg he]
      simp only [hv]
      rfl

theorem distanceLinesLines_shape (lhs rhs : Geom ℚ) :
    ∃ F C, ∀ res, distanceLinesLines lhs rhs res = (F, min res C) := by
  by_cases he : (lhs.isEmpty || rhs.isEmpty) = true
  · refine ⟨false, ⊤, fun res => ?_⟩
    unfold distanceLinesLines
    rw [if_pos he, min_top_eq]
  · cases hL : lhs.xyList with
    | nil =>
      refine ⟨false, ⊤, fun res => ?_⟩
      unfold distanceLinesLines
      rw [if_neg he]
      simp only [hL]
      rw [min_top_eq]
    | cons lv ltl =>
      cases hR : rhs.xyList with
      | nil =>
        refine ⟨false, ⊤, fun res => ?_⟩
        unfold distanceLinesLines
        rw [if_neg he]
        simp only [hL, hR]
        rw [min_top_eq]
      | cons rv rtl =>
        by_cases hlt : ltl = []
        · by_cases hrt : rtl = []
          · refine ⟨true, ((vertexDistance lv rv : ℝ) : WithTop ℝ), fun res => ?_⟩
            unfold distanceLinesLines
            rw [if_neg he]
            simp only [hL, hR]
            rw [if_pos ⟨hlt, hrt⟩]
            rfl
          · refine ⟨true, minVertSegs lv rv rtl ⊤, fun res => ?_⟩
            unfold distanceLinesLines
            rw [if_neg he]
            simp only [hL, hR]
            rw [if_neg (fun hh => hrt hh.2), if_pos hlt, minVertSegs_shape]
        · by_cases hrt : rtl = []
          · refine ⟨true, minVertSegs rv lv ltl ⊤, fun res => ?_⟩
            unfold distanceLinesLines
            rw [if_neg he]
            simp only [hL, hR]
            rw [if_neg (fun hh => hlt hh.1), if_neg hlt, if_pos hrt,
              minVertSegs_shape]
          · refine ⟨true, minSegSegsOuter rv rtl lv ltl ⊤, fun res => ?_⟩
            unfold distanceLinesLines
            rw [if_neg he]
            simp only [hL, hR]
            rw [if_neg (fun hh => hlt hh.1), if_neg hlt, if_neg hrt,
              minSegSegsOuter_shape]

theorem distLinesHoles_shape (lhs : Geom ℚ) :
    ∀ rings : List (Geom ℚ), ∃ F C, ∀ res, distLinesHoles lhs rings res = (F, min res C) := by
  intro rings
  induction rings with
  | nil =>
    refine ⟨true, ⊤, fun res => ?_⟩
    simp only [distLinesHoles]
    rw [min_top_eq]
  | cons ring rest ih =>
    obtain ⟨F1, C1, h1⟩ := distanceLinesLines_shape lhs ring
    obtain ⟨F2, C2, h2⟩ := ih
    cases hF1 : F1 with
    | false =>
      refine ⟨false, C1, fun res => ?_⟩
      simp only [distLinesHoles]
      rw [h1 res, hF1]
    | true =>
      refine ⟨F2, min C1 C2, fun res => ?_⟩
      simp only [distLinesHoles]
      rw [h1 res, hF1]
      show distLinesHoles lhs rest (min res C1) = (F2, min res (min C1 C2))
      rw [h2 (min res C1), min_assoc]

theorem distanceLinesPolyg_shape (lhs rhs : Geom ℚ) :
    ∃ F C, ∀ res, distanceLinesPolyg lhs rhs res = (F, min res C) := by
  by_cases he : (lhs.isEmpty || rhs.isEmpty) = true
  · refine ⟨false, ⊤, fun res => ?_⟩
    simp only [distanceLinesPolyg]
    rw [if_pos he, min_top_eq]
  · by_cases hext : vertexInRingXY (firstXY lhs) ((rhs.parts.headD noRing).xyList) =
        PipResult.EXTERIOR
    · obtain ⟨F, C, hFC⟩ := distanceLinesLines_shape lhs (rhs.parts.headD noRing)
      refine ⟨F, C, fun res => ?_⟩
      simp only [distanceLinesPolyg]
      rw [if_neg he, if_pos hext]
      exact hFC res
    · obtain ⟨F1, C1, h1⟩ := distLinesHoles_shape lhs rhs.parts.tail
      cases hF1 : F1 with
      | false =>
        refine ⟨false, C1, fun res => ?_⟩
        simp only [distanceLinesPolyg]
        rw [if_neg he, if_neg hext, h1 res, hF1]
      | true =>
        by_cases hany : (rhs.parts.tail.any (fun ring =>
            decide (vertexInRingXY (firstXY lhs) ring.xyList ≠ PipResult.EXTERIOR))) = true
        · refine ⟨true, C1, fun res => ?_⟩
          simp only [distanceLinesPolyg]
          rw [if_neg he, if_neg hext, h1 res, hF1]
          show (if _ = true then _ else _ : Bool × WithTop ℝ) = _
          rw [if_pos hany]
        · refine ⟨true, min C1 ((0 : ℝ) : WithTop ℝ), fun res => ?_⟩
          simp only [distanceLinesPolyg]
          rw [if_neg he, if_neg hext, h1 res, hF1]
          show (if _ = true then _ else _ : Bool × WithTop ℝ) = _
          rw [if_neg hany]
          show (true, min (min res C1) ((0 : ℝ) : WithTop ℝ)) = _
          rw [min_assoc]

theorem distancePolygPolyg_shape (lhs rhs : Geom ℚ) :
    ∃ F C, ∀ res, distancePolygPolyg lhs rhs res = (F, min res C) := by
  by_cases he : (lhs.isEmpty || rhs.isEmpty) = true
  · refine ⟨false, ⊤, fun res => ?_⟩
    simp only [distancePolygPolyg]
    rw [if_pos he, min_top_eq]
  · by_cases hboth : vertexInRingXY (firstXY (lhs.parts.headD noRing))
        ((rhs.parts.headD noRing).xyList) = PipResult.EXTERIOR ∧
        vertexInRingXY (firstXY (rhs.parts.headD noRing))
          ((lhs.parts.headD noRing).xyList) = PipResult.EXTERIOR
    · obtain ⟨F, C, hFC⟩ :=
        distanceLinesLines_shape (lhs.parts.headD noRing) (rhs.parts.headD noRing)
      refine ⟨F, C, fun res => ?_⟩
      simp only [distancePolygPolyg]
      rw [if_neg he, if_pos hboth]
      exact hFC res
    · cases hfA : lhs.parts.tail.find? (fun ring =>
          decide (vertexInRingXY (firstXY (rhs.parts.headD noRing)) ring.xyList ≠
            PipResult.EXTERIOR)) with
      | some lring =>
        obtain ⟨F, C, hFC⟩ := distanceLinesLines_shape lring (rhs.parts.headD noRing)
        refine ⟨F, C, fun res => ?_⟩
        simp only [distancePolygPolyg]
        rw [if_neg he, if_neg hboth]
        simp only [hfA]
        exact hFC res
      | none =>
        cases hfB : rhs.parts.tail.find? (fun ring =>
            decide (vertexInRingXY (firstXY (lhs.parts.headD noRing)) ring.xyList ≠
              PipResult.EXTERIOR)) with
        | some rring =>
          obtain ⟨F, C, hFC⟩ := distanceLinesLines_shape (lhs.parts.headD noRing) rring
          refine ⟨F, C, fun res => ?_⟩
          simp only [distancePolygPolyg]
          rw [if_neg he, if_neg hboth]
          simp only [hfA, hfB]
          exact hFC res
        | none =>
          refine ⟨true, ((0 : ℝ) : WithTop ℝ), fun res => ?_⟩
          simp only [distancePolygPolyg]
          rw [if_neg he, if_neg hboth]
          simp only [hfA, hfB]
          rfl

theorem distanceDispatch_shape_ex (la lb : Geom ℚ) :
    ∃ F C, ∀ res, distanceDispatch la lb res = (F, min res C) := by
  unfold distanceDispatch
  cases hA : la.ty <;> cases hB : lb.ty <;>
    first
    | exact distancePointPoint_shape la lb
    | exact distancePointLines_shape la lb
    | exact distancePointLines_shape lb la
    | exact distancePointPolyg_shape la lb
    | exact distancePointPolyg_shape lb la
    | exact distanceLinesLines_shape la lb
    | exact distanceLinesPolyg_shape la lb
    | exact distanceLinesPolyg_shape lb la
    | exact distancePolygPolyg_shape la lb
    | exact ⟨false, ⊤, fun res => by rw [min_top_eq]⟩

theorem distanceDispatch_shape (la lb : Geom ℚ) (res : WithTop ℝ) :
    distanceDispatch la lb res =
      ((distanceDispatch la lb ⊤).1, min res (distanceDispatch la lb ⊤).2) := by
  obtain ⟨F, C, h⟩ := distanceDispatch_shape_ex la lb
  rw [h res, h ⊤, top_min_eq]

/-- The success flag of `distance_dispatch` on a leaf pair (independent of
the accumulator). -/
noncomputable def pairFlag (la lb : Geom ℚ) : Bool := (distanceDispatch la lb ⊤).1

/-- The distance contribution of `distance_dispatch` on a leaf pair. -/
noncomputable def pairDist (la lb : Geom ℚ) : WithTop ℝ := (distanceDispatch la lb ⊤).2

theorem distLoopInner_closed (la : Geom ℚ) :
    ∀ (lbs : List (Geom ℚ)) (acc : Bool × WithTop ℝ),
      distLoopInner la lbs acc =
        (acc.1 || lbs.any (fun lb => pairFlag la lb),
         min acc.2 (minOver lbs (fun lb => pairDist la lb))) := by
  intro lbs
  induction lbs with
  | nil =>
    intro acc
    simp only [distLoopInner, List.any_nil, minOver_nil, Bool.or_false,
      min_top_eq]
  | cons lb tl ih =>
    intro acc
    simp only [distLoopInner]
    obtain ⟨F, C, hFC⟩ := distanceDispatch_shape_ex la lb
    rw [hFC acc.2]
    dsimp only
    rw [ih]
    dsimp only
    have hf : pairFlag la lb = F := by unfold pairFlag; rw [hFC ⊤]
    have hc : pairDist la lb = C := by unfold pairDist; rw [hFC ⊤, top_min_eq]
    rw [List.any_cons, minOver_cons, hf, hc, Bool.or_assoc, min_assoc]

theorem distLoopOuter_closed (lbs : List (Geom ℚ)) :
    ∀ (las : List (Geom ℚ)) (acc : Bool × WithTop ℝ),
      distLoopOuter lbs las acc =
        (acc.1 || las.any (fun la => lbs.any (fun lb => pairFlag la lb)),
         min acc.2 (minOver las (fun la => minOver lbs (fun lb => pairDist la lb)))) := by
  intro las
  induction las with
  | nil =>
    intro acc
    simp only [distLoopOuter, List.any_nil, minOver_nil, Bool.or_false,
      min_top_eq]
  | cons la tl ih =>
    intro acc
    simp only [distLoopOuter]
    rw [distLoopInner_closed, ih]
    dsimp only
    rw [List.any_cons, minOver_cons, Bool.or_assoc, min_assoc]

/-- C2 (amended): `ops::get_euclidean_distance` returns the same flag and
distance in both argument orders, provided no pair of polygon leaves is
mutually hole-hitting (each containing a hole that classifies the first
shell vertex of the other as not-EXTERIOR) — the one code path where
`distance_polyg_polyg` consults the two polygons' holes in an
order-dependent way. -/
theorem C2_getEuclideanDistance_symm (a b : Geom ℚ)
    (hguard : ∀ p ∈ leavesOf a, ∀ q ∈ leavesOf b,
      p.ty = GType.polygon → q.ty = GType.polygon →
      ¬(holeHit p q = true ∧ holeHit q p = true)) :
    getEuclideanDistance a b = getEuclideanDistance b a := by
  unfold getEuclideanDistance
  rw [distLoopOuter_closed, distLoopOuter_closed]
  dsimp only
  rw [Bool.false_or, Bool.false_or, top_min_eq, top_min_eq]
  have hsym : ∀ la ∈ leavesOf a, ∀ lb ∈ leavesOf b,
      distanceDispatch la lb ⊤ = distanceDispatch lb la ⊤ := by
    intro la hla lb hlb
    exact distanceDispatch_symm la lb (hguard la hla lb hlb) ⊤
  congr 1
  · rw [any_any_swap]
    refine list_any_congr _ _ _ (fun lb hlb => ?_)
    refine list_any_congr _ _ _ (fun la hla => ?_)
    unfold pairFlag
    rw [hsym la hla lb hlb]
  · rw [minOver_swap]
    refine minOver_congr _ _ _ (fun lb hlb => ?_)
    refine minOver_congr _ _ _ (fun la hla => ?_)
    unfold pairDist
    rw [hsym la hla lb hlb]

/-- Counterexample polygon A: degenerate two-vertex shell and hole (the
point-in-ring test returns INVALID, which is not EXTERIOR, on such rings). -/
def cexPolyA : Geom ℚ :=
  Geom.mk GType.polygon false false []
    [Geom.mk GType.linestring false false [⟨0, 0, 0, 0⟩, ⟨1, 0, 0, 0⟩] [],
     Geom.mk GType.linestring false false [⟨10, 0, 0, 0⟩, ⟨11, 0, 0, 0⟩] []]

/-- Counterexample polygon B. -/
def cexPolyB : Geom ℚ :=
  Geom.mk GType.polygon false false []
    [Geom.mk GType.linestring false false [⟨1000, 0, 0, 0⟩, ⟨1001, 0, 0, 0⟩] [],
     Geom.mk GType.linestring false false [⟨500, 0, 0, 0⟩, ⟨501, 0, 0, 0⟩] []]

theorem cex_ssd_ab :
    segmentSegmentDistance ⟨10, 0⟩ ⟨11, 0⟩ ⟨1000, 0⟩ ⟨1001, 0⟩ = 989 := by
  have h1 : vertexSegmentDistance ⟨10, 0⟩ ⟨1000, 0⟩ ⟨1001, 0⟩ = 990 := by
    simp only [vertexSegmentDistance, vertexDistanceSquared, vertexDistance]
    norm_num [min_def, max_def]
    rw [show ((980100 : ℝ)) = 990 ^ 2 by norm_num, Real.sqrt_sq (by norm_num)]
  have h2 : vertexSegmentDistance ⟨11, 0⟩ ⟨1000, 0⟩ ⟨1001, 0⟩ = 989 := by
    simp only [vertexSegmentDistance, vertexDistanceSquared, vertexDistance]
    norm_num [min_def, max_def]
    rw [show ((978121 : ℝ)) = 989 ^ 2 by norm_num, Real.sqrt_sq (by norm_num)]
  have h3 : vertexSegmentDistance ⟨1000, 0⟩ ⟨10, 0⟩ ⟨11, 0⟩ = 989 := by
    simp only [vertexSegmentDistance, vertexDistanceSquared, vertexDistance]
    norm_num [min_def, max_def]
    rw [show ((978121 : ℝ)) = 989 ^ 2 by norm_num, Real.sqrt_sq (by norm_num)]
  have h4 : vertexSegmentDistance ⟨1001, 0⟩ ⟨10, 0⟩ ⟨11, 0⟩ = 990 := by
    simp only [vertexSegmentDistance, vertexDistanceSquared, vertexDistance]
    norm_num [min_def, max_def]
    rw [show ((980100 : ℝ)) = 990 ^ 2 by norm_num, Real.sqrt_sq (by norm_num)]
  simp only [segmentSegmentDistance]
  rw [if_neg (by norm_num), if_neg (by norm_num), if_pos (by norm_num)]
  rw [h1, h2, h3, h4]
  norm_num [min_def]

theorem cex_ssd_ba :
    segmentSegmentDistance ⟨500, 0⟩ ⟨501, 0⟩ ⟨0, 0⟩ ⟨1, 0⟩ = 499 := by
  have h1 : vertexSegmentDistance ⟨500, 0⟩ ⟨0, 0⟩ ⟨1, 0⟩ = 499 := by
    simp only [vertexSegmentDistance, vertexDistanceSquared, vertexDistance]
    norm_num [min_def, max_def]
    rw [show ((249001 : ℝ)) = 499 ^ 2 by norm_num, Real.sqrt_sq (by norm_num)]
  have h2 : vertexSegmentDistance ⟨501, 0⟩ ⟨0, 0⟩ ⟨1, 0⟩ = 500 := by
    simp only [vertexSegmentDistance, vertexDistanceSquared, vertexDistance]
    norm_num [min_def, max_def]
    rw [show ((250000 : ℝ)) = 500 ^ 2 by norm_num, Real.sqrt_sq (by norm_num)]
  have h3 : vertexSegmentDistance ⟨0, 0⟩ ⟨500, 0⟩ ⟨501, 0⟩ = 500 := by
    simp only [vertexSegmentDistance, vertexDistanceSquared, vertexDistance]
    norm_num [min_def, max_def]
    rw [show ((250000 : ℝ)) = 500 ^ 2 by norm_num, Real.sqrt_sq (by norm_num)]
  have h4 : vertexSegmentDistance ⟨1, 0⟩ ⟨500, 0⟩ ⟨501, 0⟩ = 499 := by
    simp only [vertexSegmentDistance, vertexDistanceSquared, vertexDistance]
    norm_num [min_def, max_def]
    rw [show ((249001 : ℝ)) = 499 ^ 2 by norm_num, Real.sqrt_sq (by norm_num)]
  simp only [segmentSegmentDistance]
  rw [if_neg (by norm_num), if_neg (by norm_num), if_pos (by norm_num)]
  rw [h1, h2, h3, h4]
  norm_num [min_def]

/-- C2 counterexample: the two orders disagree — `d(A, B)` scans A's holes
first and measures A's hole against B's shell (distance 989), while
`d(B, A)` scans B's holes first and measures B's hole against A's shell
(distance 499). -/
theorem C2_counterexample :
    getEuclideanDistance cexPolyA cexPolyB ≠ getEuclideanDistance cexPolyB cexPolyA := by
  have e1 : getEuclideanDistance cexPolyA cexPolyB =
      (true, distRes ⊤ (segmentSegmentDistance ⟨10, 0⟩ ⟨11, 0⟩ ⟨1000, 0⟩ ⟨1001, 0⟩)) :=
    rfl
  have e2 : getEuclideanDistance cexPolyB cexPolyA =
      (true, distRes ⊤ (segmentSegmentDistance ⟨500, 0⟩ ⟨501, 0⟩ ⟨0, 0⟩ ⟨1, 0⟩)) :=
    rfl
  rw [e1, e2, cex_ssd_ab, cex_ssd_ba]
  unfold distRes
  rw [top_min_eq, top_min_eq]
  intro h
  rw [Prod.mk.injEq] at h
  have h2 := h.2
  rw [WithTop.coe_eq_coe] at h2
  norm_num at h2

/-- Witness geometry for C2: a single point. -/
def cexPointA : Geom ℚ := Geom.mk GType.point false false [⟨0, 0, 0, 0⟩] []

/-- Witness geometry for C2: another single point. -/
def cexPointB : Geom ℚ := Geom.mk GType.point false false [⟨3, 4, 0, 0⟩] []

/-- Witness for C2 (amended): two POINT geometries satisfy the guard
vacuously and the distance is symmetric. -/
theorem C2_witness :
    (∀ p ∈ leavesOf cexPointA, ∀ q ∈ leavesOf cexPointB,
      p.ty = GType.polygon → q.ty = GType.polygon →
      ¬(holeHit p q = true ∧ holeHit q p = true)) ∧
    getEuclideanDistance cexPointA cexPointB =
      getEuclideanDistance cexPointB cexPointA :=
  ⟨by decide, C2_getEuclideanDistance_symm cexPointA cexPointB (by decide)⟩

end Distance


/-!
## The prepared distance path (claim C1)

`prepared_geometry::try_get_distance` on two prepared LINESTRINGs runs
`try_get_prepared_distance_lines` (sgl.cpp lines 3195-3406) over the
R-tree-like `prepared_index`.  For a LINESTRING of at most `NODE_SIZE = 32`
vertices the index built by `prepared_geometry::build` has exactly one
level with one entry (`count = ceil(n/32) = 1`, so the first layer bound is
already `<= 1`), covering vertices `[0, min(33, n))`, i.e. all of them.  On
such inputs the search loop pops the single root (leaf, leaf) pair — the
initial entry has distance 0 and `min_dist` is infinite, so neither break
triggers — runs the leaf-leaf segment scan, and exits with the queue
empty.  The model below is that specialisation: the leaf scan with its
zero-length-segment skips and bounding-box quick skips, over exact `ℚ`
squared distances with `⊤ : WithTop ℚ` as the infinite initial `min_dist`.
-/

section Prepared

/-- `math::clamp` (sgl.hpp lines 62-65). -/
def clampQ (v lo hi : ℚ) : ℚ := if v < lo then lo else if hi < v then hi else v

/-- `point_segment_dist_sq` (sgl.cpp lines 3115-3130). -/
def pointSegmentDistSq (p a b : Vxy ℚ) : ℚ :=
  let abx := b.x - a.x
  let aby := b.y - a.y
  let apx := p.x - a.x
  let apy := p.y - a.y
  let abLenSq := abx * abx + aby * aby
  if abLenSq = 0 then apx * apx + apy * apy
  else
    let t := clampQ ((apx * abx + apy * aby) / abLenSq) 0 1
    let projx := a.x + abx * t
    let projy := a.y + aby * t
    (p.x - projx) * (p.x - projx) + (p.y - projy) * (p.y - projy)

/-- `point_on_segment` (sgl.cpp lines 3132-3136), exactly as written: its
comment says "check if point P is on segment QR", but the expression tests
whether Q lies in the bounding box of P and R. -/
def pointOnSegment (p q r : Vxy ℚ) : Bool :=
  decide (min p.x r.x ≤ q.x ∧ q.x ≤ max p.x r.x ∧
    min p.y r.y ≤ q.y ∧ q.y ≤ max p.y r.y)

/-- What `point_on_segment`'s comment (and the standard orientation-method
intersection test it serves) requires: P within the bounding box of Q and
R.  This definition follows the spec's words, for contrast with
`pointOnSegment` above. -/
def pointOnSegmentSpec (p q r : Vxy ℚ) : Bool :=
  decide (min q.x r.x ≤ p.x ∧ p.x ≤ max q.x r.x ∧
    min q.y r.y ≤ p.y ∧ p.y ≤ max q.y r.y)

/-- `segment_intersects` (sgl.cpp lines 3138-3179), including the
`point_on_segment(a1, b1, b2)`-style collinear checks as written. -/
def segmentIntersects (a1 a2 b1 b2 : Vxy ℚ) : Bool :=
  if a1.x = a2.x ∧ a1.y = a2.y then
    if b1.x = b2.x ∧ b1.y = b2.y then decide (a1.x = b1.x ∧ a1.y = b1.y)
    else pointOnSegment a1 b1 b2
  else if b1.x = b2.x ∧ b1.y = b2.y then pointOnSegment b1 a1 a2
  else
    let o1 := orient2dFast a1 a2 b1
    let o2 := orient2dFast a1 a2 b2
    let o3 := orient2dFast b1 b2 a1
    let o4 := orient2dFast b1 b2 a2
    if o1 ≠ o2 ∧ o3 ≠ o4 then true
    else if o1 = 0 ∧ pointOnSegment a1 b1 b2 = true then true
    else if o2 = 0 ∧ pointOnSegment a2 b1 b2 = true then true
    else if o3 = 0 ∧ pointOnSegment b1 a1 a2 = true then true
    else if o4 = 0 ∧ pointOnSegment b2 a1 a2 = true then true
    else false

/-- `segment_segment_dist_sq` (sgl.cpp lines 3181-3193). -/
def segmentSegmentDistSq (a1 a2 b1 b2 : Vxy ℚ) : ℚ :=
  if segmentIntersects a1 a2 b1 b2 = true then 0
  else
    min (min (pointSegmentDistSq a1 b1 b2) (pointSegmentDistSq a2 b1 b2))
        (min (pointSegmentDistSq b1 a1 a2) (pointSegmentDistSq b2 a1 a2))

/-- An xy extent with exact rational bounds. -/
structure ExtentQ where
  minX : ℚ
  minY : ℚ
  maxX : ℚ
  maxY : ℚ
deriving DecidableEq, Repr

/-- `extent_xy::distance_to_sq` (sgl.hpp lines 179-183). -/
def extentDistanceToSq (e o : ExtentQ) : ℚ :=
  let dx := max 0 (max (e.minX - o.maxX) (o.minX - e.maxX))
  let dy := max 0 (max (e.minY - o.maxY) (o.minY - e.maxY))
  dx * dx + dy * dy

/-- The per-segment extent computed by the leaf scan. -/
def segExtent (p q : Vxy ℚ) : ExtentQ :=
  ⟨min p.x q.x, min p.y q.y, max p.x q.x, max p.y q.y⟩

/-- `extent_xy::smallest()` as ordered by `prepared_geometry::build` (the
largest-finite-double sentinels, per claim C9, read as exact rationals). -/
def smallestExtentQ : ExtentQ := ⟨dblMax, dblMax, dblLowest, dblLowest⟩

/-- The leaf-box fill of `prepared_geometry::build`: min/max-merge the
vertices of the node's range into `extent_xy::smallest()`. -/
def extentOfVerts : List (Vxy ℚ) → ExtentQ → ExtentQ
  | [], e => e
  | v :: tl, e =>
    extentOfVerts tl ⟨min e.minX v.x, min e.minY v.y, max e.maxX v.x, max e.maxY v.y⟩

/-- The inner (rhs-segment) loop of the leaf-leaf scan of
`try_get_prepared_distance_lines`: state is `(min_dist, found_any)`. -/
def prepInner (lp ln : Vxy ℚ) (lseg : ExtentQ) :
    Vxy ℚ → List (Vxy ℚ) → WithTop ℚ × Bool → WithTop ℚ × Bool
  | _, [], st => st
  | rp, rn :: rtl, st =>
    if rp.x = rn.x ∧ rp.y = rn.y then prepInner lp ln lseg rn rtl st
    else if st.1 < ((extentDistanceToSq (segExtent rp rn) lseg : ℚ) : WithTop ℚ) then
      prepInner lp ln lseg rn rtl st
    else
      let d := segmentSegmentDistSq lp ln rp rn
      prepInner lp ln lseg rn rtl
        (if ((d : ℚ) : WithTop ℚ) < st.1 then (((d : ℚ) : WithTop ℚ), true) else st)

/-- The outer (lhs-segment) loop of the leaf-leaf scan. -/
def prepOuter (rhsVerts : List (Vxy ℚ)) (rhsBox : ExtentQ) :
    Vxy ℚ → List (Vxy ℚ) → WithTop ℚ × Bool → WithTop ℚ × Bool
  | _, [], st => st
  | lp, ln :: ltl, st =>
    if lp.x = ln.x ∧ lp.y = ln.y then prepOuter rhsVerts rhsBox ln ltl st
    else if st.1 < ((extentDistanceToSq (segExtent lp ln) rhsBox : ℚ) : WithTop ℚ) then
      prepOuter rhsVerts rhsBox ln ltl st
    else
      match rhsVerts with
      | [] => prepOuter rhsVerts rhsBox ln ltl st
      | rv :: rtl =>
        prepOuter rhsVerts rhsBox ln ltl (prepInner lp ln (segExtent lp ln) rv rtl st)

/-- `try_get_prepared_distance_lines` specialised to single-level prepared
LINESTRINGs (at most 32 vertices; see the section comment): the root
(leaf, leaf) scan, then `sqrt(min_dist)` on success. -/
noncomputable def tryGetPreparedDistanceLines (lhsVerts rhsVerts : List (Vxy ℚ)) :
    Option ℝ :=
  match lhsVerts, rhsVerts with
  | [], _ => none
  | _, [] => none
  | lv :: ltl, rv :: rtl =>
    let rhsBox := extentOfVerts (rv :: rtl) smallestExtentQ
    let st := prepOuter (rv :: rtl) rhsBox lv ltl (⊤, false)
    if st.2 = true then some (Real.sqrt ((st.1.untop' 0 : ℚ) : ℝ)) else none

/-- The counterexample linestring a = LINESTRING(0 0, 1 0). -/
def lineA : Geom ℚ := Geom.mk GType.linestring false false [⟨0, 0, 0, 0⟩, ⟨1, 0, 0, 0⟩] []

/-- The counterexample linestring b = LINESTRING(3 0, 10 0). -/
def lineB : Geom ℚ := Geom.mk GType.linestring false false [⟨3, 0, 0, 0⟩, ⟨10, 0, 0, 0⟩] []

/-- C1: the prepared and unprepared distance paths disagree.  On
a = LINESTRING(0 0, 1 0) and b = LINESTRING(3 0, 10 0) the prepared search
returns distance 0 while the unprepared `distance_lines_lines` computes 2,
because `segment_intersects` wrongly reports an intersection: its collinear
check calls `point_on_segment(a1, b1, b2)`, which (as written) tests
whether b1 lies in the bounding box of a1 and b2 instead of whether a1
lies on segment b1-b2 (the test its own comment describes, which fails
here). -/
theorem C1_prepared_unprepared_divergence :
    tryGetPreparedDistanceLines [⟨0, 0⟩, ⟨1, 0⟩] [⟨3, 0⟩, ⟨10, 0⟩] = some 0 ∧
    distanceLinesLines lineA lineB ⊤ = (true, ((2 : ℝ) : WithTop ℝ)) ∧
    segmentIntersects ⟨0, 0⟩ ⟨1, 0⟩ ⟨3, 0⟩ ⟨10, 0⟩ = true ∧
    pointOnSegment ⟨0, 0⟩ ⟨3, 0⟩ ⟨10, 0⟩ = true ∧
    pointOnSegmentSpec ⟨0, 0⟩ ⟨3, 0⟩ ⟨10, 0⟩ = false := by
  have hpos : pointOnSegment ⟨0, 0⟩ ⟨3, 0⟩ ⟨10, 0⟩ = true := by
    simp only [pointOnSegment, decide_eq_true_eq]
    norm_num [min_def, max_def]
  have hposSpec : pointOnSegmentSpec ⟨0, 0⟩ ⟨3, 0⟩ ⟨10, 0⟩ = false := by
    simp only [pointOnSegmentSpec, decide_eq_false_iff_not]
    norm_num [min_def, max_def]
  have hsi : segmentIntersects ⟨0, 0⟩ ⟨1, 0⟩ ⟨3, 0⟩ ⟨10, 0⟩ = true := by
    simp only [segmentIntersects]
    rw [if_neg (by norm_num), if_neg (by norm_num),
      if_neg (by norm_num [orient2dFast]),
      if_pos ⟨by norm_num [orient2dFast], hpos⟩]
  have hsq : segmentSegmentDistSq ⟨0, 0⟩ ⟨1, 0⟩ ⟨3, 0⟩ ⟨10, 0⟩ = 0 := by
    unfold segmentSegmentDistSq
    rw [if_pos hsi]
  have hprep : tryGetPreparedDistanceLines [⟨0, 0⟩, ⟨1, 0⟩] [⟨3, 0⟩, ⟨10, 0⟩] =
      some 0 := by
    simp only [tryGetPreparedDistanceLines, prepOuter, prepInner, hsq]
    norm_num [not_top_lt, WithTop.coe_lt_top, WithTop.untop'_coe, Real.sqrt_zero]
  have hv1 : vertexSegmentDistance ⟨0, 0⟩ ⟨3, 0⟩ ⟨10, 0⟩ = 3 := by
    simp only [vertexSegmentDistance, vertexDistanceSquared, vertexDistance]
    norm_num [min_def, max_def]
    rw [show ((9 : ℝ)) = 3 ^ 2 by norm_num, Real.sqrt_sq (by norm_num)]
  have hv2 : vertexSegmentDistance ⟨1, 0⟩ ⟨3, 0⟩ ⟨10, 0⟩ = 2 := by
    simp only [vertexSegmentDistance, vertexDistanceSquared, vertexDistance]
    norm_num [min_def, max_def]
    rw [show ((4 : ℝ)) = 2 ^ 2 by norm_num, Real.sqrt_sq (by norm_num)]
  have hv3 : vertexSegmentDistance ⟨3, 0⟩ ⟨0, 0⟩ ⟨1, 0⟩ = 2 := by
    simp only [vertexSegmentDistance, vertexDistanceSquared, vertexDistance]
    norm_num [min_def, max_def]
    rw [show ((4 : ℝ)) = 2 ^ 2 by norm_num, Real.sqrt_sq (by norm_num)]
  have hv4 : vertexSegmentDistance ⟨10, 0⟩ ⟨0, 0⟩ ⟨1, 0⟩ = 9 := by
    simp only [vertexSegmentDistance, vertexDistanceSquared, vertexDistance]
    norm_num [min_def, max_def]
    rw [show ((81 : ℝ)) = 9 ^ 2 by norm_num, Real.sqrt_sq (by norm_num)]
  have hssd : segmentSegmentDistance ⟨0, 0⟩ ⟨1, 0⟩ ⟨3, 0⟩ ⟨10, 0⟩ = 2 := by
    simp only [segmentSegmentDistance]
    rw [if_neg (by norm_num), if_neg (by norm_num), if_pos (by norm_num)]
    rw [hv1, hv2, hv3, hv4]
    norm_num [min_def]
  have hll : distanceLinesLines lineA lineB ⊤ =
      (true, distRes ⊤ (segmentSegmentDistance ⟨0, 0⟩ ⟨1, 0⟩ ⟨3, 0⟩ ⟨10, 0⟩)) := rfl
  refine ⟨hprep, ?_, hsi, hpos, hposSpec⟩
  rw [hll, hssd]
  unfold distRes
  rw [top_min_eq]

end Prepared

end SGL
